import Mathlib

/-!
Verification development for the core of a generational copying garbage
collector (`src/context.rs` and collaborators).  The collector engine in
`context.rs` is embedded shallowly: headers, the two-generation heap, the
mark/copy/sweep cycle, allocation routing and the initialization-failure
guard.  Machine pointers become `Nat` addresses, the heap becomes an
association list from addresses to objects, and the recursive trace
dispatch is made total with an explicit fuel parameter (the analogue of
the `stacker::maybe_grow` stack-growth guard in the source).

Parts of the repository referenced by `context.rs` but absent from the
sources (`context/layout.rs`, `context/young.rs`, the body of
`context/old.rs`, `utils.rs`) are modelled from the specification; each
such definition carries a doc comment starting with `Modelled from the
spec:`.  Debug-only assertions (`debug_assert!`, `cfg(debug_assertions)`)
are not modelled: the embedding follows release semantics.
-/

namespace ZeroGc

/-- `u32::MAX`, the sentinel in `alloc_info.nontrivial_drop_index`
meaning "trivial drop" (src/context.rs line 583 and spec section 3). -/
def u32Max : Nat := 4294967295

/-- `GenerationId` (src/context.rs lines 429-434): `Young = 0`, `Old = 1`. -/
inductive GenerationId where
  | Young
  | Old
deriving DecidableEq, Repr

/-- Logical mark colors (`GcMarkBits` in `context/layout.rs`). -/
inductive GcMarkBits where
  | White
  | Black
deriving DecidableEq, Repr

/-- Modelled from the spec: `layout.rs` is missing from the sources.
Spec section 3 (mark bits): "`White` and `Black` resolve to the physical
bit values `(inverted, !inverted)` respectively".  This resolves a raw
physical bit to a logical color given the collector polarity. -/
def GcMarkBits.resolveRaw (inverted : Bool) (raw : Bool) : GcMarkBits :=
  if raw = inverted then .White else .Black

/-- Modelled from the spec: inverse of `resolveRaw` (`mark.to_raw(state)`
in spec section 4.1). -/
def GcMarkBits.toRaw (inverted : Bool) : GcMarkBits → Bool
  | .White => inverted
  | .Black => !inverted

/-- The bit-packed per-object state (`GcStateBits` in `layout.rs`,
field list from spec section 3 and the `init_state_bits` builder in
src/context.rs lines 332-341). -/
structure GcStateBits where
  forwarded : Bool
  array : Bool
  generation : GenerationId
  raw_mark_bits : Bool
  value_initialized : Bool
deriving DecidableEq, Repr

/-- The header `metadata` union (spec section 3): either a pointer to
static type info (modelled as an index into a type-info table) or a
forwarding pointer, discriminated by `state_bits.forwarded`. -/
inductive HeaderMetadata where
  | typeInfo (idx : Nat)
  | forwardPtr (addr : Nat)
deriving DecidableEq, Repr

/-- `alloc_info` bookkeeping: `nontrivial_drop_index : u32`, sentinel
`u32::MAX` = trivial drop (spec section 3, used at src/context.rs:583). -/
structure AllocInfo where
  nontrivial_drop_index : Nat
deriving DecidableEq, Repr

/-- A `GcHeader` together with the `GcArrayHeader` extension: regular
headers ignore `len_elements` (kept 0).  Fields per spec section 3. -/
structure GcHeader where
  collector_id : Nat
  state_bits : GcStateBits
  metadata : HeaderMetadata
  alloc_info : AllocInfo
  len_elements : Nat
deriving DecidableEq, Repr

/-- Static type information (`GcTypeInfo` / the element type info inside
`GcArrayTypeInfo`).  The trace function consumed from user types (spec
section 6) is modelled by the list of payload-cell offsets holding
managed pointers — the spec states a trace function "invokes
`trace_gc_ptr_mut` on every managed pointer field"; `none` means no
trace function.  `hasDropFunc` models `drop_func.is_some()`.  For an
array header the table entry describes the element type
(`element_type_info`); the array bit in the state bits discriminates. -/
structure GcTypeInfo where
  valueCells : Nat
  valueSize : Nat
  traceCells : Option (List Nat)
  hasDropFunc : Bool
deriving DecidableEq, Repr

/-- A heap object: header plus payload.  Payload is a list of cells;
cells holding managed pointers store the target header address. -/
structure GcObject where
  header : GcHeader
  payload : List Nat
deriving DecidableEq, Repr

/-- Events recorded by the model, used to state ordering and dispatch
counting properties of a collection cycle. -/
inductive GcEvent where
  | armGuard
  | defuseGuard
  | sweepYoung
  | sweepOld
  | flipPolarity
  | recordSize (young old : Nat)
  | traceDispatch (owner : Nat) (idx : Nat)
  | memcpyBytes (n : Nat)
  | dropObject (addr : Nat)
  | destroyUninit (addr : Nat)
deriving DecidableEq, Repr

/-- `GenerationSizes` (src/context.rs lines 105-109). -/
structure GenerationSizes where
  young_generation_size : Nat
  old_generation_size : Nat
deriving DecidableEq, Repr

/-- `GenerationSizes::INITIAL_COLLECT_THRESHOLD` (src/context.rs lines
110-114), kept exactly as written in the source, including the
`12 * 1204` constant in the old dimension. -/
def GenerationSizes.INITIAL_COLLECT_THRESHOLD : GenerationSizes :=
  { young_generation_size := 12 * 1024
    old_generation_size := 12 * 1204 }

/-- `GenerationSizes::meets_either_threshold` (src/context.rs 116-121). -/
def GenerationSizes.meets_either_threshold (self threshold : GenerationSizes) : Bool :=
  decide (threshold.young_generation_size ≤ self.young_generation_size) ||
    decide (threshold.old_generation_size ≤ self.old_generation_size)

/-- A root-table entry: `Weak<GcRootBox>`; `alive` models whether the
weak reference still upgrades (strong count nonzero), `header` the
`Cell<NonNull<GcHeader>>` inside the `GcRootBox`. -/
structure RootEntry where
  alive : Bool
  header : Nat
deriving DecidableEq, Repr

/-- The collector state: the `GarbageCollector` struct (src/context.rs
123-130) together with its two spaces flattened into one record.  The
heap is an association list from header address to object; `nextAddr`
is the allocation frontier (fresh addresses); `destructionQueue` is the
young space's queue of headers whose type needs drop; `oldOom` is an
oracle making the old space report out-of-memory. -/
structure GcState where
  typeInfos : List GcTypeInfo
  heap : List (Nat × GcObject)
  nextAddr : Nat
  destructionQueue : List Nat
  mark_bits_inverted : Bool
  youngBytes : Nat
  oldBytes : Nat
  oldOom : Bool
  roots : List RootEntry
  lastCollectSize : Option GenerationSizes
  collectorId : Nat
  events : List GcEvent
deriving DecidableEq, Repr

/-- First-match association-list lookup (pointer dereference). -/
def lookupA : List (Nat × GcObject) → Nat → Option GcObject
  | [], _ => none
  | p :: rest, a => if p.1 = a then some p.2 else lookupA rest a

/-- Pointwise store: replaces the object at an existing address, no-op
on absent addresses. -/
def setA : List (Nat × GcObject) → Nat → GcObject → List (Nat × GcObject)
  | [], _, _ => []
  | p :: rest, a, o => (if p.1 = a then (a, o) else p) :: setA rest a o

def GcState.lookupObj (st : GcState) (a : Nat) : Option GcObject :=
  lookupA st.heap a

def GcState.setObj (st : GcState) (a : Nat) (o : GcObject) : GcState :=
  { st with heap := setA st.heap a o }

/-- `update_state_bits` on the header at `a` (spec section 4.1:
read-modify-write closure over the packed bits). -/
def GcState.updateStateBits (st : GcState) (a : Nat) (f : GcStateBits → GcStateBits) : GcState :=
  match st.lookupObj a with
  | some o => st.setObj a { o with header := { o.header with state_bits := f o.header.state_bits } }
  | none => st

/-- Write the metadata union of the header at `a` (forward-pointer
installation). -/
def GcState.setMetadata (st : GcState) (a : Nat) (m : HeaderMetadata) : GcState :=
  match st.lookupObj a with
  | some o => st.setObj a { o with header := { o.header with metadata := m } }
  | none => st

/-- Overwrite the whole payload of the object at `a` (the promotion
`memcpy` of the value bytes). -/
def GcState.setPayload (st : GcState) (a : Nat) (pl : List Nat) : GcState :=
  match st.lookupObj a with
  | some o => st.setObj a { o with payload := pl }
  | none => st

/-- `trace_gc_ptr_mut`'s write-back of one managed-pointer slot: store
`v` into payload cell `i` of the object at `a`. -/
def GcState.setCell (st : GcState) (a : Nat) (i : Nat) (v : Nat) : GcState :=
  match st.lookupObj a with
  | some o => st.setObj a { o with payload := o.payload.set i v }
  | none => st

/-- Modelled from the spec: `young.rs` is missing from the sources.
`remove_destruction_queue` (spec section 4.3): remove the header from
the young destruction queue so drop is not run on a moved-from object. -/
def GcState.removeDestructionQueue (st : GcState) (a : Nat) : GcState :=
  { st with destructionQueue := st.destructionQueue.filter (fun b => b ≠ a) }

def GcState.logEvent (st : GcState) (e : GcEvent) : GcState :=
  { st with events := e :: st.events }

/-- Total lookup into the static type-info table (static references are
always valid in the source; out-of-range indices get a trivial entry). -/
def GcState.getTi (st : GcState) (idx : Nat) : GcTypeInfo :=
  (st.typeInfos.get? idx).getD { valueCells := 0, valueSize := 0, traceCells := none, hasDropFunc := false }

/-!
### Allocation

`RawAllocTarget` (src/context.rs 325-427) collapses `RegularAlloc` and
`ArrayAlloc` into one record: `isArray` is the `ARRAY` constant, `tiIdx`
indexes the type info (for arrays, the element type info), `lenElements`
is the array length (`GcArrayLayoutInfo::len_elements`).
-/

structure AllocTarget where
  isArray : Bool
  tiIdx : Nat
  lenElements : Nat
deriving DecidableEq, Repr

/-- Modelled from the spec: header byte size.  `layout.rs` (fixed header
alignment and overall-layout computation) is missing from the sources;
the spec fixes the header alignment at 8 bytes but not its size.  The
exact value is immaterial to every claim. -/
def HEADER_BYTES : Nat := 16

/-- Payload cell count of an allocation: `len_elements` contiguously
packed element values for arrays (spec section 3), one value otherwise. -/
def AllocTarget.payloadCells (t : AllocTarget) (ti : GcTypeInfo) : Nat :=
  if t.isArray then t.lenElements * ti.valueCells else ti.valueCells

/-- Value-layout byte size: for arrays the spec's array layout helpers
compute it from `len_elements` (section 3: packed elements). -/
def AllocTarget.valueBytes (t : AllocTarget) (ti : GcTypeInfo) : Nat :=
  if t.isArray then t.lenElements * ti.valueSize else ti.valueSize

/-- `overall_layout().size()`: header plus value bytes. -/
def AllocTarget.overallBytes (t : AllocTarget) (ti : GcTypeInfo) : Nat :=
  HEADER_BYTES + t.valueBytes ti

/-- `needs_drop` of an alloc target (src/context.rs 360-363 and
401-404): presence of the (element) drop function. -/
def AllocTarget.needsDrop (_t : AllocTarget) (ti : GcTypeInfo) : Bool :=
  ti.hasDropFunc

/-- `RawAllocTarget::init_state_bits` (src/context.rs 332-341):
`forwarded = false`, the target's array flag, the given generation, a
`White` raw mark under the current polarity, `value_initialized =
false`. -/
def initStateBits (inverted : Bool) (isArray : Bool) (gen : GenerationId) : GcStateBits :=
  { forwarded := false
    array := isArray
    generation := gen
    raw_mark_bits := GcMarkBits.White.toRaw inverted
    value_initialized := false }

/-- Build the fresh header+payload object for an allocation: header
fields per `init_header` (the base header carries the collector id and
the type-info metadata), `nontrivial_drop_index` cached from the drop
function's presence (sentinel `u32::MAX` when trivial), uninitialized
payload cells. -/
def mkAllocObject (st : GcState) (t : AllocTarget) (gen : GenerationId) : GcObject :=
  let ti := st.getTi t.tiIdx
  { header :=
      { collector_id := st.collectorId
        state_bits := initStateBits st.mark_bits_inverted t.isArray gen
        metadata := .typeInfo t.tiIdx
        alloc_info := { nontrivial_drop_index := if t.needsDrop ti then 0 else u32Max }
        len_elements := if t.isArray then t.lenElements else 0 }
    payload := List.replicate (t.payloadCells ti) 0 }

/-- Modelled from the spec: the body of `OldGenerationSpace::alloc_raw`
is missing from the sources (only a fragment of `old.rs` is present).
Spec section 4.2: allocate a header+payload combined layout, initialize
the header, `state_bits` with `generation = Old`, `raw_mark = White`,
`value_initialized = false`; track `allocated_bytes` exactly; fails
with `OutOfMemory` (here driven by the `oldOom` oracle). -/
def oldAllocRaw (st : GcState) (t : AllocTarget) : Option (Nat × GcState) :=
  if st.oldOom then none
  else
    let a := st.nextAddr
    let obj := mkAllocObject st t .Old
    some (a, { st with
                heap := st.heap ++ [(a, obj)]
                nextAddr := st.nextAddr + 1
                oldBytes := st.oldBytes + t.overallBytes (st.getTi t.tiIdx) })

/-- `YoungAllocError` (from `context/young.rs`, names per the use sites
in src/context.rs 181-185). -/
inductive YoungAllocError where
  | SizeExceedsLimit
  | OutOfMemory
deriving DecidableEq, Repr

/-- Modelled from the spec: `YOUNG_REGION_BYTES`, default 2 MiB
(spec section 6 tunables). -/
def YOUNG_REGION_BYTES : Nat := 2 * 1024 * 1024

/-- Modelled from the spec: `YOUNG_MAX_OBJECT_BYTES`, default half the
region (spec sections 4.3 and 6). -/
def YOUNG_MAX_OBJECT_BYTES : Nat := YOUNG_REGION_BYTES / 2

/-- Modelled from the spec: `YoungGenerationSpace::alloc_raw`
(`young.rs` is missing from the sources).  Spec section 4.3: per-object
size capped by `YOUNG_MAX_OBJECT_BYTES` (`SizeExceedsLimit`,
recoverable); exhausting the region is `OutOfMemory` (fatal); young
headers whose type has a non-trivial drop enter the destruction
queue. -/
def youngAllocRaw (st : GcState) (t : AllocTarget) :
    Except YoungAllocError (Nat × GcState) :=
  let ti := st.getTi t.tiIdx
  let size := t.overallBytes ti
  if YOUNG_MAX_OBJECT_BYTES < size then .error .SizeExceedsLimit
  else if YOUNG_REGION_BYTES < st.youngBytes + size then .error .OutOfMemory
  else
    let a := st.nextAddr
    let obj := mkAllocObject st t .Young
    .ok (a, { st with
              heap := st.heap ++ [(a, obj)]
              nextAddr := st.nextAddr + 1
              youngBytes := st.youngBytes + size
              destructionQueue :=
                if t.needsDrop ti then a :: st.destructionQueue else st.destructionQueue })

/-- Result of `GarbageCollector::alloc_raw`: either a header address
with the updated collector, or a fatal `oom` panic (src/context.rs
195-199, `fn oom<E> -> !`). -/
inductive AllocRawResult where
  | ok (addr : Nat) (st : GcState)
  | fatalOom (msg : String)
deriving DecidableEq, Repr

/-- `GarbageCollector::alloc_raw_fallback` (src/context.rs 188-193):
old-generation allocation, OOM is fatal. -/
def alloc_raw_fallback (st : GcState) (t : AllocTarget) : AllocRawResult :=
  match oldAllocRaw st t with
  | some (a, st') => .ok a st'
  | none => .fatalOom "Fatal allocation error: OutOfMemory"

/-- `GarbageCollector::alloc_raw` (src/context.rs 179-186): try the
young generation; `SizeExceedsLimit` routes to the old-generation
fallback; `OutOfMemory` is fatal. -/
def alloc_raw (st : GcState) (t : AllocTarget) : AllocRawResult :=
  match youngAllocRaw st t with
  | .ok (a, st') => .ok a st'
  | .error .SizeExceedsLimit => alloc_raw_fallback st t
  | .error .OutOfMemory => .fatalOom "Fatal allocation error: OutOfMemory"

/-- Modelled from the spec: `OldGenerationSpace::destroy_uninit_object`
(body missing from the sources).  Spec section 4.2: free the
allocation; used only by the init-failure guard. -/
def destroy_uninit_object (st : GcState) (a : Nat) : GcState :=
  let size := match st.lookupObj a with
    | some o =>
        HEADER_BYTES + (if o.header.state_bits.array
          then o.header.len_elements * (st.getTi (match o.header.metadata with
            | .typeInfo i => i
            | .forwardPtr _ => 0)).valueSize
          else (st.getTi (match o.header.metadata with
            | .typeInfo i => i
            | .forwardPtr _ => 0)).valueSize)
    | none => 0
  { st with
    heap := st.heap.filter (fun p => p.1 ≠ a)
    oldBytes := st.oldBytes - size
    events := GcEvent.destroyUninit a :: st.events }

/-- Outcome of `alloc_with`: success returns the header address; a
non-local exit of the initializer surfaces as `initPanic` carrying the
state after the `DestroyUninitValueGuard` ran; allocation failure is a
fatal panic. -/
inductive AllocOutcome where
  | ok (addr : Nat) (st : GcState)
  | initPanic (st : GcState)
  | fatalOom (msg : String)
deriving DecidableEq, Repr

/-- `DestroyUninitValueGuard::drop` (src/context.rs 696-717): asserts
the value is still uninitialized (`none` models that assertion
failing), then frees old-generation headers via
`destroy_uninit_object` and leaves young-generation headers for the
next sweep. -/
def destroyUninitGuardDrop (st : GcState) (a : Nat) : Option GcState :=
  match st.lookupObj a with
  | none => none
  | some o =>
    if o.header.state_bits.value_initialized then none
    else
      match o.header.state_bits.generation with
      | .Old => some (destroy_uninit_object st a)
      | .Young => some st

/-- `GarbageCollector::alloc_with` (src/context.rs 157-177): allocate
raw, arm the initialization guard, run the initializer into the
payload (`none` = non-local exit), set `value_initialized = true`,
defuse the guard.  The initializer is a closure, as in the source. -/
def alloc_with (st : GcState) (t : AllocTarget) (func : Unit → Option (List Nat)) :
    AllocOutcome :=
  match alloc_raw st t with
  | .fatalOom m => .fatalOom m
  | .ok a st1 =>
    match func () with
    | none =>
      match destroyUninitGuardDrop st1 a with
      | some st2 => .initPanic st2
      | none => .fatalOom "Value successfully initialized but guard not defused"
    | some v =>
      let st2 := st1.setPayload a v
      let st3 := st2.updateStateBits a (fun b => { b with value_initialized := true })
      .ok a st3

/-- `GarbageCollector::alloc` (src/context.rs 151-154): literally
`self.alloc_with(|| value)`. -/
def alloc (st : GcState) (t : AllocTarget) (value : List Nat) : AllocOutcome :=
  alloc_with st t (fun _ => some value)

/-!
### Tracing (`CollectContext`, src/context.rs 436-676)

The mutually recursive trace dispatch is split into combinators
parameterized by the function they recurse through, and the knot is
tied by structural recursion on a fuel parameter
(`traceChildrenFuel`).  Fuel is the analogue of the
`stacker::maybe_grow` recursion guard: exhausting it yields the
distinguished `outOfFuel` outcome, never a wrong answer.
-/

/-- Result of `collect_gcheader`: the forwarded header address plus the
updated state, a fatal panic, or fuel exhaustion. -/
inductive GcRes where
  | ok (addr : Nat) (st : GcState)
  | fatal (msg : String)
  | outOfFuel
deriving DecidableEq, Repr

/-- Result of the child-tracing helpers (state only). -/
inductive StRes where
  | ok (st : GcState)
  | fatal (msg : String)
  | outOfFuel
deriving DecidableEq, Repr

/-- One `trace_gc_ptr_mut` step per managed-pointer cell of `owner`
(src/context.rs 446-465): read the slot, collect the pointed-to
header, write the post-collection address back into the slot. -/
def traceCellListG (collectFn : GcState → Nat → GcRes) (owner : Nat) :
    List Nat → GcState → StRes
  | [], st => .ok st
  | c :: rest, st =>
    match st.lookupObj owner with
    | none => .fatal "dangling traced object"
    | some o =>
      match collectFn st (o.payload.getD c 0) with
      | .ok r st' => traceCellListG collectFn owner rest (st'.setCell owner c r)
      | .fatal m => .fatal m
      | .outOfFuel => .outOfFuel

/-- `trace_children_array` (src/context.rs 664-675): dispatch the trace
function once per element; element `i`'s managed-pointer cells sit at
offsets `i * elemCells + off`.  Each dispatch is logged. -/
def traceElementsG (collectFn : GcState → Nat → GcRes) (owner : Nat)
    (elemCells : Nat) (offs : List Nat) : List Nat → GcState → StRes
  | [], st => .ok st
  | i :: rest, st =>
    match traceCellListG collectFn owner (offs.map (fun off => i * elemCells + off))
        (st.logEvent (.traceDispatch owner i)) with
    | .ok st' => traceElementsG collectFn owner elemCells offs rest st'
    | .fatal m => .fatal m
    | .outOfFuel => .outOfFuel

/-- `trace_children` (src/context.rs 647-662): array headers dispatch
per element, regular headers dispatch the trace function once on the
payload. -/
def trace_childrenG (collectFn : GcState → Nat → GcRes) (st : GcState)
    (owner : Nat) : StRes :=
  match st.lookupObj owner with
  | none => .fatal "dangling traced object"
  | some o =>
    match o.header.metadata with
    | .forwardPtr _ => .fatal "cannot trace a forwarded header"
    | .typeInfo tiIdx =>
      let ti := st.getTi tiIdx
      let cells := ti.traceCells.getD []
      if o.header.state_bits.array then
        traceElementsG collectFn owner ti.valueCells cells
          (List.range o.header.len_elements) st
      else
        traceCellListG collectFn owner cells (st.logEvent (.traceDispatch owner 0))

/-- The tail of `fallback_collect_gc_header` (src/context.rs 630-644):
if the type has a trace function, trace the children of the (possibly
new) header; then return it. -/
def traceValueG (tc : GcState → Nat → StRes) (st : GcState) (ptr : Nat)
    (tiIdx : Nat) : GcRes :=
  match (st.getTi tiIdx).traceCells with
  | none => .ok ptr st
  | some _ =>
    match tc st ptr with
    | .ok st' => .ok ptr st'
    | .fatal m => .fatal m
    | .outOfFuel => .outOfFuel

/-- The promotion bookkeeping of `fallback_collect_gc_header`
(src/context.rs 570-589): the copy at `c` receives the original's
current state bits (already `Black`), then `generation = Old` and
`value_initialized = true`; the original at `addr` is marked forwarded
and its metadata becomes the forward pointer to `c`; when the cached
drop index says the type needs drop, the original leaves the young
destruction queue. -/
def promoteBookkeeping (st2 : GcState) (addr c : Nat) (origNow copyObj : GcObject) : GcState :=
  let st3 := st2.setObj c
    { copyObj with header := { copyObj.header with state_bits := origNow.header.state_bits } }
  let st4 := st3.updateStateBits c
    (fun b => { b with generation := .Old, value_initialized := true })
  let st5 := (st4.updateStateBits addr (fun b => { b with forwarded := true })).setMetadata
    addr (.forwardPtr c)
  if origNow.header.alloc_info.nontrivial_drop_index < u32Max
    then st5.removeDestructionQueue addr else st5

/-- The payload `memcpy` of the promotion (src/context.rs 590-620):
copy the value bytes (`nbytes` of them) from the original at `addr`
into the copy at `c`. -/
def promoteCopyValue (st6 : GcState) (addr c : Nat) (nbytes : Nat) : GcState :=
  let st7 := match st6.lookupObj addr with
    | some oNow => st6.setPayload c oNow.payload
    | none => st6
  st7.logEvent (.memcpyBytes nbytes)

/-- `CollectContext::fallback_collect_gc_header` (src/context.rs
502-645), the cold path for a `White` header: mark it `Black`; a young
header is reallocated in the old space (array layout derived from
`len_elements`), then promoted (`promoteBookkeeping`,
`promoteCopyValue`); an old header stays in place.  Finally the
children are traced. -/
def fallbackG (tc : GcState → Nat → StRes) (st : GcState) (addr : Nat) : GcRes :=
  match st.lookupObj addr with
  | none => .fatal "dangling gc header"
  | some obj =>
    let array := obj.header.state_bits.array
    let st1 := st.updateStateBits addr
      (fun b => { b with raw_mark_bits := GcMarkBits.Black.toRaw st.mark_bits_inverted })
    match obj.header.metadata with
    | .forwardPtr _ => .fatal "traced a forwarded header"
    | .typeInfo tiIdx =>
      match obj.header.state_bits.generation with
      | .Young =>
        match oldAllocRaw st1 { isArray := array, tiIdx := tiIdx,
                                lenElements := obj.header.len_elements } with
        | none => .fatal "Oldgen alloc failure"
        | some (c, st2) =>
          match st2.lookupObj addr, st2.lookupObj c with
          | some origNow, some copyObj =>
            let st6 := promoteBookkeeping st2 addr c origNow copyObj
            let nbytes := if array
              then obj.header.len_elements * (st6.getTi tiIdx).valueSize
              else (st6.getTi tiIdx).valueSize
            traceValueG tc (promoteCopyValue st6 addr c nbytes) c tiIdx
          | _, _ => .fatal "dangling gc header"
      | .Old => traceValueG tc st1 addr tiIdx

/-- `CollectContext::collect_gcheader` (src/context.rs 467-500):
assert the collector id matches (mismatch is fatal); forwarded headers
return their forward pointer untouched; `Black` headers return
unchanged; `White` headers enter the cold fallback path. -/
def collectG (tc : GcState → Nat → StRes) (st : GcState) (addr : Nat) : GcRes :=
  match st.lookupObj addr with
  | none => .fatal "dangling gc header"
  | some obj =>
    if obj.header.collector_id = st.collectorId then
      if obj.header.state_bits.forwarded then
        match obj.header.metadata with
        | .forwardPtr p => .ok p st
        | .typeInfo _ => .fatal "forwarded header without forward pointer"
      else
        match GcMarkBits.resolveRaw st.mark_bits_inverted obj.header.state_bits.raw_mark_bits with
        | .Black => .ok addr st
        | .White => fallbackG tc st addr
    else .fatal "Mismatched collector ids"

/-- Fuel-indexed child tracing: ties the recursive knot structurally. -/
def traceChildrenFuel : Nat → GcState → Nat → StRes
  | 0, _, _ => .outOfFuel
  | Nat.succ f, st, owner =>
    trace_childrenG (fun s a => collectG (traceChildrenFuel f) s a) st owner

/-- `collect_gcheader` at a given fuel. -/
def collect_gcheader (fuel : Nat) (st : GcState) (addr : Nat) : GcRes :=
  collectG (traceChildrenFuel fuel) st addr

/-- `fallback_collect_gc_header` at a given fuel. -/
def fallback_collect_gc_header (fuel : Nat) (st : GcState) (addr : Nat) : GcRes :=
  fallbackG (traceChildrenFuel fuel) st addr

/-!
### The collection cycle (`GarbageCollector`, src/context.rs 219-301)
-/

/-- Result of the root-marking loop: the retained root entries plus
the state, a fatal trace failure, or fuel exhaustion. -/
inductive RootsRes where
  | ok (entries : List RootEntry) (st : GcState)
  | fatal (msg : String)
  | outOfFuel
deriving DecidableEq, Repr

/-- The `roots.retain` loop of `force_collect` (src/context.rs
235-244): dead entries (weak upgrade fails) are dropped; live entries
have their header cell replaced by the result of tracing. -/
def markRootsAux (fuel : Nat) (st : GcState) : List RootEntry → RootsRes
  | [] => .ok [] st
  | e :: rest =>
    if e.alive then
      match collect_gcheader fuel st e.header with
      | .ok r st' =>
        match markRootsAux fuel st' rest with
        | .ok es st'' => .ok ({ alive := true, header := r } :: es) st''
        | .fatal m => .fatal m
        | .outOfFuel => .outOfFuel
      | .fatal m => .fatal m
      | .outOfFuel => .outOfFuel
    else markRootsAux fuel st rest

/-- The headers the young sweep will drop: still on the destruction
queue, not forwarded, and `White` under the current polarity. -/
def youngSweepDrops (st : GcState) : List Nat :=
  st.destructionQueue.filter (fun a =>
    match st.lookupObj a with
    | some o =>
      !o.header.state_bits.forwarded &&
        decide (GcMarkBits.resolveRaw st.mark_bits_inverted o.header.state_bits.raw_mark_bits
          = GcMarkBits.White)
    | none => false)

/-- Modelled from the spec: `YoungGenerationSpace::sweep` (`young.rs`
missing from the sources).  Spec section 4.3: run the drop function of
every queued header that is still `White` (promoted / forwarded
headers must not be dropped), then reset the region — the whole young
space is reclaimed, the bump displacement returns to zero and the
queue is cleared. -/
def youngSweep (st : GcState) : GcState :=
  let st1 := st.logEvent .sweepYoung
  let st2 := (youngSweepDrops st).foldl (fun s a => s.logEvent (.dropObject a)) st1
  { st2 with
    heap := st2.heap.filter (fun p => p.2.header.state_bits.generation = GenerationId.Old)
    destructionQueue := []
    youngBytes := 0 }

/-- Byte size of an old-space object, for exact `allocated_bytes`
tracking (spec section 4.2). -/
def GcState.objBytes (st : GcState) (o : GcObject) : Nat :=
  let tiIdx := match o.header.metadata with
    | .typeInfo i => i
    | .forwardPtr _ => 0
  HEADER_BYTES + (if o.header.state_bits.array
    then o.header.len_elements * (st.getTi tiIdx).valueSize
    else (st.getTi tiIdx).valueSize)

/-- Modelled from the spec: `OldGenerationSpace::sweep` (body missing
from the sources).  Spec section 4.2: every `White` old object has its
drop function (if any) run and is freed; `Black` objects are retained
(the polarity flip later whitens them). -/
def oldSweep (st : GcState) : GcState :=
  let st1 := st.logEvent .sweepOld
  let isWhiteOld := fun (p : Nat × GcObject) =>
    p.2.header.state_bits.generation = GenerationId.Old ∧
      GcMarkBits.resolveRaw st.mark_bits_inverted p.2.header.state_bits.raw_mark_bits
        = GcMarkBits.White
  let dropped := st1.heap.filter (fun p => decide (isWhiteOld p))
  let st2 := dropped.foldl (fun s p => s.logEvent (.dropObject p.1)) st1
  { st2 with
    heap := st2.heap.filter (fun p => !decide (isWhiteOld p))
    oldBytes := st2.oldBytes - (dropped.map (fun p => st2.objBytes p.2)).sum }

/-- `GarbageCollector::current_size` (src/context.rs 277-283). -/
def current_size (st : GcState) : GenerationSizes :=
  { young_generation_size := st.youngBytes
    old_generation_size := st.oldBytes }

/-- `GarbageCollector::threshold_size` (src/context.rs 285-294):
initial threshold before any cycle, doubled last-observed sizes after. -/
def threshold_size (st : GcState) : GenerationSizes :=
  match st.lastCollectSize with
  | none => GenerationSizes.INITIAL_COLLECT_THRESHOLD
  | some last_sizes =>
    { young_generation_size := last_sizes.young_generation_size * 2
      old_generation_size := last_sizes.old_generation_size * 2 }

/-- `GarbageCollector::needs_collection` (src/context.rs 296-300). -/
def needs_collection (st : GcState) : Bool :=
  (current_size st).meets_either_threshold (threshold_size st)

/-- Result of a collection entry point. -/
inductive FCResult where
  | ok (st : GcState)
  | abort (msg : String)
  | outOfFuel
deriving DecidableEq, Repr

/-- `GarbageCollector::force_collect` (src/context.rs 226-275): arm the
abort-on-failure guard, run the root-marking retain loop (a trace
panic with the guard armed escalates to a process abort, modelling
`AbortFailureGuard` from the missing `utils.rs` per spec section 4.5's
failure model), defuse the guard, sweep young then old, flip the mark
polarity, record `last_collect_size = current_size`. -/
def force_collect (fuel : Nat) (st : GcState) : FCResult :=
  let st0 := st.logEvent .armGuard
  match markRootsAux fuel st0 st0.roots with
  | .fatal _ => .abort "GC failure to trace is fatal"
  | .outOfFuel => .outOfFuel
  | .ok entries st1 =>
    let st2 := ({ st1 with roots := entries }).logEvent .defuseGuard
    let st3 := youngSweep st2
    let st4 := oldSweep st3
    let st5 := { st4 with mark_bits_inverted := !st4.mark_bits_inverted }
    let st6 := st5.logEvent .flipPolarity
    let sz := current_size st6
    .ok { (st6.logEvent (.recordSize sz.young_generation_size sz.old_generation_size)) with
          lastCollectSize := some sz }

/-- `GarbageCollector::collect` (src/context.rs 219-224). -/
def collect (fuel : Nat) (st : GcState) : FCResult :=
  if needs_collection st then force_collect fuel st else .ok st

/-!
### Invariant layer

Definitions used to state and prove the preservation properties of a
collection cycle.
-/

/-- Heap well-formedness: every allocated address lies below the
allocation frontier, so fresh addresses are really fresh. -/
def WFheap (st : GcState) : Prop :=
  ∀ p ∈ st.heap, p.1 < st.nextAddr

/-- The post-collection address of a header: its forwarding target if
it has been forwarded, itself otherwise. -/
def resolveForward (st : GcState) (a : Nat) : Nat :=
  match st.lookupObj a with
  | some o =>
    if o.header.state_bits.forwarded then
      match o.header.metadata with
      | .forwardPtr p => p
      | .typeInfo _ => a
    else a
  | none => a

/-- A header is settled for the current cycle when it is forwarded or
resolves to `Black`: `collect_gcheader` returns without touching it. -/
def settled (st : GcState) (a : Nat) : Prop :=
  ∃ o, st.lookupObj a = some o ∧
    (o.header.state_bits.forwarded = true ∨
      GcMarkBits.resolveRaw st.mark_bits_inverted o.header.state_bits.raw_mark_bits
        = GcMarkBits.Black)

/-- Events the marking phase may emit. -/
def GcEvent.isTraceEvent : GcEvent → Bool
  | .traceDispatch _ _ => true
  | .memcpyBytes _ => true
  | _ => false

/-- What one marking-phase step preserves, relative to an optional
exception address `ex` (the object whose payload cells the step is
allowed to rewrite).  `st` is the entry state, `st'` the exit state. -/
structure Pres (ex : Option Nat) (st st' : GcState) : Prop where
  colId : st'.collectorId = st.collectorId
  inv : st'.mark_bits_inverted = st.mark_bits_inverted
  tis : st'.typeInfos = st.typeInfos
  next_mono : st.nextAddr ≤ st'.nextAddr
  dom_mono : ∀ a o, st.lookupObj a = some o →
    ∃ o', st'.lookupObj a = some o' ∧ o'.header.collector_id = o.header.collector_id
  queue_sub : ∀ a, a ∈ st'.destructionQueue → a ∈ st.destructionQueue
  fwd_keep : ∀ a o, st.lookupObj a = some o → o.header.state_bits.forwarded = true →
    ∃ o', st'.lookupObj a = some o' ∧ o'.header = o.header ∧ (some a ≠ ex → o' = o)
  black_keep : ∀ a o, st.lookupObj a = some o → o.header.state_bits.forwarded = false →
    GcMarkBits.resolveRaw st.mark_bits_inverted o.header.state_bits.raw_mark_bits
      = GcMarkBits.Black →
    ∃ o', st'.lookupObj a = some o' ∧ o'.header = o.header ∧ (some a ≠ ex → o' = o)
  wf : WFheap st → WFheap st'
  ev_mono : ∃ extra, st'.events = extra ++ st.events ∧ ∀ e ∈ extra, e.isTraceEvent = true
  disp_count : ∀ o i, some o ≠ ex → settled st o →
    st'.events.count (GcEvent.traceDispatch o i) = st.events.count (GcEvent.traceDispatch o i)

/-- Specification of a collect function suitable for recursive use:
on success it preserves the settled part of the state, returns the
post-collection address of its argument, and leaves the argument
settled. -/
def CSpec (cf : GcState → Nat → GcRes) : Prop :=
  ∀ st a r st', WFheap st → cf st a = .ok r st' →
    Pres none st st' ∧ r = resolveForward st' a ∧ settled st' a

/-- Specification of a child-tracing function: on success it preserves
the settled state except the owner's payload cells. -/
def TCSpec (tc : GcState → Nat → StRes) : Prop :=
  ∀ st o st', WFheap st → tc st o = .ok st' → Pres (some o) st st'

/-- The state `fallback_collect_gc_header` reaches on the young path
right after the promotion bookkeeping (mark black, old-space copy,
forwarding, queue removal, payload copy) and right before tracing the
children.  `st` is the entry state, `addr` the promoted header, `obj`
its entry-state object, `tiIdx` its type info, `stMid` the mid state.
The copy lives at the fresh address `st.nextAddr`. -/
structure MidFacts (st : GcState) (addr : Nat) (obj : GcObject) (tiIdx : Nat)
    (stMid : GcState) : Prop where
  orig : stMid.lookupObj addr = some { obj with header :=
    { obj.header with
      state_bits := { obj.header.state_bits with
        raw_mark_bits := GcMarkBits.Black.toRaw st.mark_bits_inverted
        forwarded := true }
      metadata := .forwardPtr st.nextAddr } }
  copy : stMid.lookupObj st.nextAddr = some
    { header :=
        { collector_id := st.collectorId
          state_bits :=
            { forwarded := obj.header.state_bits.forwarded
              array := obj.header.state_bits.array
              generation := .Old
              raw_mark_bits := GcMarkBits.Black.toRaw st.mark_bits_inverted
              value_initialized := true }
          metadata := .typeInfo tiIdx
          alloc_info := { nontrivial_drop_index :=
            if (st.getTi tiIdx).hasDropFunc then 0 else u32Max }
          len_elements := if obj.header.state_bits.array then obj.header.len_elements else 0 }
      payload := obj.payload }
  others : ∀ x, x ≠ addr → x ≠ st.nextAddr → stMid.lookupObj x = st.lookupObj x
  queue : stMid.destructionQueue =
    if obj.header.alloc_info.nontrivial_drop_index < u32Max
      then st.destructionQueue.filter (fun b => b ≠ addr)
      else st.destructionQueue
  events : stMid.events = GcEvent.memcpyBytes
      (if obj.header.state_bits.array
        then obj.header.len_elements * (st.getTi tiIdx).valueSize
        else (st.getTi tiIdx).valueSize) :: st.events
  next : stMid.nextAddr = st.nextAddr + 1
  tis : stMid.typeInfos = st.typeInfos
  inv : stMid.mark_bits_inverted = st.mark_bits_inverted
  colId : stMid.collectorId = st.collectorId
  wf : WFheap stMid

/-!
## Lemmas about the heap primitives
-/

theorem lookupA_setA_ne {h : List (Nat × GcObject)} {a b : Nat} {o : GcObject}
    (hne : b ≠ a) : lookupA (setA h a o) b = lookupA h b := by
  induction h with
  | nil => rfl
  | cons p rest ih =>
    by_cases hp : p.1 = a
    · simp only [setA, lookupA, hp, if_pos rfl]
      rw [if_neg (by simpa using Ne.symm hne), if_neg (by omega), ih]
    · simp only [setA, lookupA, if_neg hp, ih]

theorem lookupA_setA_self {h : List (Nat × GcObject)} {a : Nat} {o x : GcObject}
    (hx : lookupA h a = some x) : lookupA (setA h a o) a = some o := by
  induction h with
  | nil => simp [lookupA] at hx
  | cons p rest ih =>
    by_cases hp : p.1 = a
    · simp [setA, lookupA, hp]
    · simp only [lookupA, if_neg hp] at hx
      simp only [setA, lookupA, if_neg hp, ih hx]

theorem lookupA_setA_none {h : List (Nat × GcObject)} {a : Nat} {o : GcObject}
    (hx : lookupA h a = none) : setA h a o = h := by
  induction h with
  | nil => rfl
  | cons p rest ih =>
    by_cases hp : p.1 = a
    · simp [lookupA, hp] at hx
    · simp only [lookupA, if_neg hp] at hx
      simp only [setA, if_neg hp, ih hx]

theorem lookupA_append_some {h l : List (Nat × GcObject)} {a : Nat} {x : GcObject}
    (hx : lookupA h a = some x) : lookupA (h ++ l) a = some x := by
  induction h with
  | nil => simp [lookupA] at hx
  | cons p rest ih =>
    by_cases hp : p.1 = a
    · simp only [lookupA, if_pos hp] at hx
      simp [lookupA, hp, hx]
    · simp only [lookupA, if_neg hp] at hx
      simp only [List.cons_append, lookupA, if_neg hp]
      exact ih hx

theorem lookupA_append_none {h l : List (Nat × GcObject)} {a : Nat}
    (hx : lookupA h a = none) : lookupA (h ++ l) a = lookupA l a := by
  induction h with
  | nil => rfl
  | cons p rest ih =>
    by_cases hp : p.1 = a
    · simp [lookupA, hp] at hx
    · simp only [lookupA, if_neg hp] at hx
      simp only [List.cons_append, lookupA, if_neg hp]
      exact ih hx

theorem lookupA_some_mem {h : List (Nat × GcObject)} {a : Nat} {o : GcObject}
    (hx : lookupA h a = some o) : (a, o) ∈ h := by
  induction h with
  | nil => simp [lookupA] at hx
  | cons p rest ih =>
    by_cases hp : p.1 = a
    · simp only [lookupA, if_pos hp] at hx
      have hpa : p = (a, o) := by
        cases p with
        | mk k v =>
          simp only at hp
          simp only [Option.some.injEq] at hx
          simp [hp, hx]
      exact List.mem_cons.mpr (Or.inl hpa.symm)
    · simp only [lookupA, if_neg hp] at hx
      exact List.mem_cons_of_mem _ (ih hx)

theorem mem_setA_key {h : List (Nat × GcObject)} {a : Nat} {o : GcObject} {q : Nat × GcObject}
    (hq : q ∈ setA h a o) : ∃ p ∈ h, q.1 = p.1 := by
  induction h with
  | nil => simp [setA] at hq
  | cons p rest ih =>
    simp only [setA] at hq
    rcases List.mem_cons.mp hq with hq | hq
    · refine ⟨p, List.mem_cons_self _ _, ?_⟩
      by_cases hp : p.1 = a
      · rw [hq, if_pos hp]
        exact hp.symm
      · rw [hq, if_neg hp]
    · obtain ⟨p', hp', hk⟩ := ih hq
      exact ⟨p', List.mem_cons_of_mem _ hp', hk⟩

theorem lookupA_mem_filter {h : List (Nat × GcObject)} {f : Nat × GcObject → Bool}
    {q : Nat × GcObject} (hq : q ∈ h.filter f) : q ∈ h :=
  (List.mem_filter.mp hq).1

/-!
## Lemmas about the state operations
-/

@[simp] theorem setObj_typeInfos (st : GcState) (a : Nat) (o : GcObject) :
    (st.setObj a o).typeInfos = st.typeInfos := rfl

@[simp] theorem setObj_nextAddr (st : GcState) (a : Nat) (o : GcObject) :
    (st.setObj a o).nextAddr = st.nextAddr := rfl

@[simp] theorem setObj_queue (st : GcState) (a : Nat) (o : GcObject) :
    (st.setObj a o).destructionQueue = st.destructionQueue := rfl

@[simp] theorem setObj_inverted (st : GcState) (a : Nat) (o : GcObject) :
    (st.setObj a o).mark_bits_inverted = st.mark_bits_inverted := rfl

@[simp] theorem setObj_events (st : GcState) (a : Nat) (o : GcObject) :
    (st.setObj a o).events = st.events := rfl

@[simp] theorem setObj_collectorId (st : GcState) (a : Nat) (o : GcObject) :
    (st.setObj a o).collectorId = st.collectorId := rfl

theorem lookupObj_setObj_ne {st : GcState} {a b : Nat} {o : GcObject} (hne : b ≠ a) :
    (st.setObj a o).lookupObj b = st.lookupObj b :=
  lookupA_setA_ne hne

theorem lookupObj_setObj_self {st : GcState} {a : Nat} {o x : GcObject}
    (hx : st.lookupObj a = some x) : (st.setObj a o).lookupObj a = some o :=
  lookupA_setA_self hx

theorem WF_setObj {st : GcState} {a : Nat} {o : GcObject} (hwf : WFheap st) :
    WFheap (st.setObj a o) := by
  intro q hq
  obtain ⟨p, hp, hk⟩ := mem_setA_key hq
  simpa [GcState.setObj, hk] using hwf p hp

theorem lookupA_push_ne {h : List (Nat × GcObject)} {c b : Nat} {o : GcObject}
    (hne : b ≠ c) : lookupA (h ++ [(c, o)]) b = lookupA h b := by
  cases hx : lookupA h b with
  | some x => exact lookupA_append_some hx
  | none =>
    rw [lookupA_append_none hx]
    simp [lookupA, Ne.symm hne]

theorem lookupA_push_self {h : List (Nat × GcObject)} {c : Nat} {o : GcObject}
    (hc : lookupA h c = none) : lookupA (h ++ [(c, o)]) c = some o := by
  rw [lookupA_append_none hc]
  simp [lookupA]

theorem lookupObj_fresh {st : GcState} (hwf : WFheap st) :
    st.lookupObj st.nextAddr = none := by
  cases hx : st.lookupObj st.nextAddr with
  | none => rfl
  | some o =>
    have := hwf _ (lookupA_some_mem hx)
    omega

/-- Field and lookup behaviour of the four read-modify-write heap
operations, which all have the shape
`match lookup a with some o => setObj a (g o) | none => id`. -/
theorem lookupObj_updateStateBits_self {st : GcState} {a : Nat} {f : GcStateBits → GcStateBits}
    {o : GcObject} (hx : st.lookupObj a = some o) :
    (st.updateStateBits a f).lookupObj a
      = some { o with header := { o.header with state_bits := f o.header.state_bits } } := by
  simp only [GcState.updateStateBits, hx]
  exact lookupObj_setObj_self hx

theorem lookupObj_updateStateBits_ne {st : GcState} {a b : Nat} {f : GcStateBits → GcStateBits}
    (hne : b ≠ a) : (st.updateStateBits a f).lookupObj b = st.lookupObj b := by
  cases hl : st.lookupObj a with
  | none => simp only [GcState.updateStateBits, hl]
  | some o =>
    simp only [GcState.updateStateBits, hl]
    exact lookupObj_setObj_ne hne

@[simp] theorem updateStateBits_typeInfos (st : GcState) (a : Nat) (f : GcStateBits → GcStateBits) :
    (st.updateStateBits a f).typeInfos = st.typeInfos := by
  cases hl : st.lookupObj a <;> simp [GcState.updateStateBits, hl]

@[simp] theorem updateStateBits_nextAddr (st : GcState) (a : Nat) (f : GcStateBits → GcStateBits) :
    (st.updateStateBits a f).nextAddr = st.nextAddr := by
  cases hl : st.lookupObj a <;> simp [GcState.updateStateBits, hl]

@[simp] theorem updateStateBits_queue (st : GcState) (a : Nat) (f : GcStateBits → GcStateBits) :
    (st.updateStateBits a f).destructionQueue = st.destructionQueue := by
  cases hl : st.lookupObj a <;> simp [GcState.updateStateBits, hl]

@[simp] theorem updateStateBits_inverted (st : GcState) (a : Nat) (f : GcStateBits → GcStateBits) :
    (st.updateStateBits a f).mark_bits_inverted = st.mark_bits_inverted := by
  cases hl : st.lookupObj a <;> simp [GcState.updateStateBits, hl]

@[simp] theorem updateStateBits_events (st : GcState) (a : Nat) (f : GcStateBits → GcStateBits) :
    (st.updateStateBits a f).events = st.events := by
  cases hl : st.lookupObj a <;> simp [GcState.updateStateBits, hl]

@[simp] theorem updateStateBits_collectorId (st : GcState) (a : Nat) (f : GcStateBits → GcStateBits) :
    (st.updateStateBits a f).collectorId = st.collectorId := by
  cases hl : st.lookupObj a <;> simp [GcState.updateStateBits, hl]

theorem WF_updateStateBits {st : GcState} {a : Nat} {f : GcStateBits → GcStateBits}
    (hwf : WFheap st) : WFheap (st.updateStateBits a f) := by
  cases hl : st.lookupObj a with
  | none => simpa [GcState.updateStateBits, hl] using hwf
  | some o =>
    have h1 := WF_setObj (o := { o with header := { o.header with state_bits := f o.header.state_bits } }) (a := a) hwf
    simpa [GcState.updateStateBits, hl] using h1

theorem lookupObj_setMetadata_self {st : GcState} {a : Nat} {m : HeaderMetadata}
    {o : GcObject} (hx : st.lookupObj a = some o) :
    (st.setMetadata a m).lookupObj a
      = some { o with header := { o.header with metadata := m } } := by
  simp only [GcState.setMetadata, hx]
  exact lookupObj_setObj_self hx

theorem lookupObj_setMetadata_ne {st : GcState} {a b : Nat} {m : HeaderMetadata}
    (hne : b ≠ a) : (st.setMetadata a m).lookupObj b = st.lookupObj b := by
  cases hl : st.lookupObj a with
  | none => simp only [GcState.setMetadata, hl]
  | some o =>
    simp only [GcState.setMetadata, hl]
    exact lookupObj_setObj_ne hne

@[simp] theorem setMetadata_typeInfos (st : GcState) (a : Nat) (m : HeaderMetadata) :
    (st.setMetadata a m).typeInfos = st.typeInfos := by
  cases hl : st.lookupObj a <;> simp [GcState.setMetadata, hl]

@[simp] theorem setMetadata_nextAddr (st : GcState) (a : Nat) (m : HeaderMetadata) :
    (st.setMetadata a m).nextAddr = st.nextAddr := by
  cases hl : st.lookupObj a <;> simp [GcState.setMetadata, hl]

@[simp] theorem setMetadata_queue (st : GcState) (a : Nat) (m : HeaderMetadata) :
    (st.setMetadata a m).destructionQueue = st.destructionQueue := by
  cases hl : st.lookupObj a <;> simp [GcState.setMetadata, hl]

@[simp] theorem setMetadata_inverted (st : GcState) (a : Nat) (m : HeaderMetadata) :
    (st.setMetadata a m).mark_bits_inverted = st.mark_bits_inverted := by
  cases hl : st.lookupObj a <;> simp [GcState.setMetadata, hl]

@[simp] theorem setMetadata_events (st : GcState) (a : Nat) (m : HeaderMetadata) :
    (st.setMetadata a m).events = st.events := by
  cases hl : st.lookupObj a <;> simp [GcState.setMetadata, hl]

@[simp] theorem setMetadata_collectorId (st : GcState) (a : Nat) (m : HeaderMetadata) :
    (st.setMetadata a m).collectorId = st.collectorId := by
  cases hl : st.lookupObj a <;> simp [GcState.setMetadata, hl]

theorem WF_setMetadata {st : GcState} {a : Nat} {m : HeaderMetadata}
    (hwf : WFheap st) : WFheap (st.setMetadata a m) := by
  cases hl : st.lookupObj a with
  | none => simpa [GcState.setMetadata, hl] using hwf
  | some o =>
    have h1 := WF_setObj (o := { o with header := { o.header with metadata := m } }) (a := a) hwf
    simpa [GcState.setMetadata, hl] using h1

theorem lookupObj_setPayload_self {st : GcState} {a : Nat} {pl : List Nat}
    {o : GcObject} (hx : st.lookupObj a = some o) :
    (st.setPayload a pl).lookupObj a = some { o with payload := pl } := by
  simp only [GcState.setPayload, hx]
  exact lookupObj_setObj_self hx

theorem lookupObj_setPayload_ne {st : GcState} {a b : Nat} {pl : List Nat}
    (hne : b ≠ a) : (st.setPayload a pl).lookupObj b = st.lookupObj b := by
  cases hl : st.lookupObj a with
  | none => simp only [GcState.setPayload, hl]
  | some o =>
    simp only [GcState.setPayload, hl]
    exact lookupObj_setObj_ne hne

@[simp] theorem setPayload_typeInfos (st : GcState) (a : Nat) (pl : List Nat) :
    (st.setPayload a pl).typeInfos = st.typeInfos := by
  cases hl : st.lookupObj a <;> simp [GcState.setPayload, hl]

@[simp] theorem setPayload_nextAddr (st : GcState) (a : Nat) (pl : List Nat) :
    (st.setPayload a pl).nextAddr = st.nextAddr := by
  cases hl : st.lookupObj a <;> simp [GcState.setPayload, hl]

@[simp] theorem setPayload_queue (st : GcState) (a : Nat) (pl : List Nat) :
    (st.setPayload a pl).destructionQueue = st.destructionQueue := by
  cases hl : st.lookupObj a <;> simp [GcState.setPayload, hl]

@[simp] theorem setPayload_inverted (st : GcState) (a : Nat) (pl : List Nat) :
    (st.setPayload a pl).mark_bits_inverted = st.mark_bits_inverted := by
  cases hl : st.lookupObj a <;> simp [GcState.setPayload, hl]

@[simp] theorem setPayload_events (st : GcState) (a : Nat) (pl : List Nat) :
    (st.setPayload a pl).events = st.events := by
  cases hl : st.lookupObj a <;> simp [GcState.setPayload, hl]

@[simp] theorem setPayload_collectorId (st : GcState) (a : Nat) (pl : List Nat) :
    (st.setPayload a pl).collectorId = st.collectorId := by
  cases hl : st.lookupObj a <;> simp [GcState.setPayload, hl]

theorem WF_setPayload {st : GcState} {a : Nat} {pl : List Nat}
    (hwf : WFheap st) : WFheap (st.setPayload a pl) := by
  cases hl : st.lookupObj a with
  | none => simpa [GcState.setPayload, hl] using hwf
  | some o =>
    have h1 := WF_setObj (o := { o with payload := pl }) (a := a) hwf
    simpa [GcState.setPayload, hl] using h1

theorem lookupObj_setCell_self {st : GcState} {a i v : Nat}
    {o : GcObject} (hx : st.lookupObj a = some o) :
    (st.setCell a i v).lookupObj a = some { o with payload := o.payload.set i v } := by
  simp only [GcState.setCell, hx]
  exact lookupObj_setObj_self hx

theorem lookupObj_setCell_ne {st : GcState} {a b i v : Nat}
    (hne : b ≠ a) : (st.setCell a i v).lookupObj b = st.lookupObj b := by
  cases hl : st.lookupObj a with
  | none => simp only [GcState.setCell, hl]
  | some o =>
    simp only [GcState.setCell, hl]
    exact lookupObj_setObj_ne hne

@[simp] theorem setCell_typeInfos (st : GcState) (a i v : Nat) :
    (st.setCell a i v).typeInfos = st.typeInfos := by
  cases hl : st.lookupObj a <;> simp [GcState.setCell, hl]

@[simp] theorem setCell_nextAddr (st : GcState) (a i v : Nat) :
    (st.setCell a i v).nextAddr = st.nextAddr := by
  cases hl : st.lookupObj a <;> simp [GcState.setCell, hl]

@[simp] theorem setCell_queue (st : GcState) (a i v : Nat) :
    (st.setCell a i v).destructionQueue = st.destructionQueue := by
  cases hl : st.lookupObj a <;> simp [GcState.setCell, hl]

@[simp] theorem setCell_inverted (st : GcState) (a i v : Nat) :
    (st.setCell a i v).mark_bits_inverted = st.mark_bits_inverted := by
  cases hl : st.lookupObj a <;> simp [GcState.setCell, hl]

@[simp] theorem setCell_events (st : GcState) (a i v : Nat) :
    (st.setCell a i v).events = st.events := by
  cases hl : st.lookupObj a <;> simp [GcState.setCell, hl]

@[simp] theorem setCell_collectorId (st : GcState) (a i v : Nat) :
    (st.setCell a i v).collectorId = st.collectorId := by
  cases hl : st.lookupObj a <;> simp [GcState.setCell, hl]

theorem WF_setCell {st : GcState} {a i v : Nat} (hwf : WFheap st) :
    WFheap (st.setCell a i v) := by
  cases hl : st.lookupObj a with
  | none => simpa [GcState.setCell, hl] using hwf
  | some o =>
    have h1 := WF_setObj (o := { o with payload := o.payload.set i v }) (a := a) hwf
    simpa [GcState.setCell, hl] using h1

@[simp] theorem lookupObj_logEvent (st : GcState) (e : GcEvent) (a : Nat) :
    (st.logEvent e).lookupObj a = st.lookupObj a := rfl

@[simp] theorem logEvent_queue (st : GcState) (e : GcEvent) :
    (st.logEvent e).destructionQueue = st.destructionQueue := rfl

@[simp] theorem logEvent_nextAddr (st : GcState) (e : GcEvent) :
    (st.logEvent e).nextAddr = st.nextAddr := rfl

@[simp] theorem logEvent_inverted (st : GcState) (e : GcEvent) :
    (st.logEvent e).mark_bits_inverted = st.mark_bits_inverted := rfl

@[simp] theorem logEvent_typeInfos (st : GcState) (e : GcEvent) :
    (st.logEvent e).typeInfos = st.typeInfos := rfl

@[simp] theorem logEvent_collectorId (st : GcState) (e : GcEvent) :
    (st.logEvent e).collectorId = st.collectorId := rfl

@[simp] theorem logEvent_events (st : GcState) (e : GcEvent) :
    (st.logEvent e).events = e :: st.events := rfl

theorem WF_logEvent {st : GcState} {e : GcEvent} (hwf : WFheap st) :
    WFheap (st.logEvent e) := hwf

@[simp] theorem lookupObj_removeQueue (st : GcState) (a b : Nat) :
    (st.removeDestructionQueue a).lookupObj b = st.lookupObj b := rfl

@[simp] theorem removeQueue_events (st : GcState) (a : Nat) :
    (st.removeDestructionQueue a).events = st.events := rfl

@[simp] theorem removeQueue_nextAddr (st : GcState) (a : Nat) :
    (st.removeDestructionQueue a).nextAddr = st.nextAddr := rfl

@[simp] theorem removeQueue_inverted (st : GcState) (a : Nat) :
    (st.removeDestructionQueue a).mark_bits_inverted = st.mark_bits_inverted := rfl

@[simp] theorem removeQueue_typeInfos (st : GcState) (a : Nat) :
    (st.removeDestructionQueue a).typeInfos = st.typeInfos := rfl

@[simp] theorem removeQueue_collectorId (st : GcState) (a : Nat) :
    (st.removeDestructionQueue a).collectorId = st.collectorId := rfl

theorem WF_removeQueue {st : GcState} {a : Nat} (hwf : WFheap st) :
    WFheap (st.removeDestructionQueue a) := hwf

theorem mem_removeQueue {st : GcState} {a b : Nat}
    (hb : b ∈ (st.removeDestructionQueue a).destructionQueue) :
    b ∈ st.destructionQueue := by
  simpa [GcState.removeDestructionQueue] using (List.mem_filter.mp hb).1

theorem not_mem_removeQueue_self (st : GcState) (a : Nat) :
    a ∉ (st.removeDestructionQueue a).destructionQueue := by
  intro h
  have := (List.mem_filter.mp h).2
  simp at this

@[simp] theorem setObj_oldOom (st : GcState) (a : Nat) (o : GcObject) :
    (st.setObj a o).oldOom = st.oldOom := rfl

@[simp] theorem updateStateBits_oldOom (st : GcState) (a : Nat) (f : GcStateBits → GcStateBits) :
    (st.updateStateBits a f).oldOom = st.oldOom := by
  cases hl : st.lookupObj a <;> simp [GcState.updateStateBits, hl]

theorem getTi_congr {st st' : GcState} (h : st'.typeInfos = st.typeInfos) (i : Nat) :
    st'.getTi i = st.getTi i := by
  unfold GcState.getTi
  rw [h]

/-- Lookup in a state whose heap was extended by one entry at the end
(the shape produced by the two space allocators). -/
theorem lookupObj_heapPush_eq (st1 : GcState) (k n2 ob : Nat) (v : GcObject) (b : Nat) :
    (({ st1 with heap := st1.heap ++ [(k, v)], nextAddr := n2, oldBytes := ob } : GcState).lookupObj b)
      = match st1.lookupObj b with
        | some x => some x
        | none => if b = k then some v else none := by
  cases hx : st1.lookupObj b with
  | some x => exact lookupA_append_some hx
  | none =>
    show lookupA (st1.heap ++ [(k, v)]) b = _
    rw [lookupA_append_none hx]
    by_cases hbk : b = k
    · subst hbk
      simp [lookupA]
    · have hkb : ¬k = b := fun h => hbk h.symm
      simp [lookupA, hbk, hkb]

theorem lookupObj_updateStateBits_fresh {st : GcState} {a : Nat}
    {f : GcStateBits → GcStateBits} (hwf : WFheap st) :
    (st.updateStateBits a f).lookupObj st.nextAddr = none := by
  have h := lookupObj_fresh (WF_updateStateBits (a := a) (f := f) hwf)
  rwa [updateStateBits_nextAddr] at h

/-!
## Characterizing the promotion bookkeeping
-/

theorem promoteBookkeeping_lookup_addr {st2 : GcState} {addr c : Nat}
    {origNow copyObj : GcObject} (hne : addr ≠ c)
    (ho : st2.lookupObj addr = some origNow) :
    (promoteBookkeeping st2 addr c origNow copyObj).lookupObj addr =
      some { origNow with header := { origNow.header with
        state_bits := { origNow.header.state_bits with forwarded := true }
        metadata := .forwardPtr c } } := by
  have h3 : (st2.setObj c { copyObj with header :=
      { copyObj.header with state_bits := origNow.header.state_bits } }).lookupObj addr
      = some origNow := by
    rw [lookupObj_setObj_ne hne]
    exact ho
  have h4 : ((st2.setObj c { copyObj with header :=
      { copyObj.header with state_bits := origNow.header.state_bits } }).updateStateBits c
        (fun b => { b with generation := .Old, value_initialized := true })).lookupObj addr
      = some origNow := by
    rw [lookupObj_updateStateBits_ne hne]
    exact h3
  have h5 := lookupObj_updateStateBits_self
    (f := fun b => { b with forwarded := true }) h4
  have h6 := lookupObj_setMetadata_self (m := HeaderMetadata.forwardPtr c) h5
  unfold promoteBookkeeping
  split
  · rw [lookupObj_removeQueue]
    exact h6
  · exact h6

theorem promoteBookkeeping_lookup_copy {st2 : GcState} {addr c : Nat}
    {origNow copyObj : GcObject} (hne : addr ≠ c)
    (hc : st2.lookupObj c = some copyObj) :
    (promoteBookkeeping st2 addr c origNow copyObj).lookupObj c =
      some { copyObj with header := { copyObj.header with
        state_bits := { origNow.header.state_bits with
          generation := .Old, value_initialized := true } } } := by
  have k3 : (st2.setObj c { copyObj with header :=
      { copyObj.header with state_bits := origNow.header.state_bits } }).lookupObj c
      = some { copyObj with header :=
        { copyObj.header with state_bits := origNow.header.state_bits } } :=
    lookupObj_setObj_self hc
  have k4 := lookupObj_updateStateBits_self
    (f := fun b => { b with generation := .Old, value_initialized := true }) k3
  have k5 : (((st2.setObj c { copyObj with header :=
      { copyObj.header with state_bits := origNow.header.state_bits } }).updateStateBits c
        (fun b => { b with generation := .Old, value_initialized := true })).updateStateBits addr
        (fun b => { b with forwarded := true })).lookupObj c
      = some { copyObj with header := { copyObj.header with
          state_bits := { origNow.header.state_bits with
            generation := .Old, value_initialized := true } } } := by
    rw [lookupObj_updateStateBits_ne (Ne.symm hne)]
    exact k4
  unfold promoteBookkeeping
  split
  · rw [lookupObj_removeQueue, lookupObj_setMetadata_ne (Ne.symm hne)]
    exact k5
  · rw [lookupObj_setMetadata_ne (Ne.symm hne)]
    exact k5

theorem promoteBookkeeping_lookup_other {st2 : GcState} {addr c x : Nat}
    {origNow copyObj : GcObject} (hxa : x ≠ addr) (hxc : x ≠ c) :
    (promoteBookkeeping st2 addr c origNow copyObj).lookupObj x = st2.lookupObj x := by
  unfold promoteBookkeeping
  split
  · rw [lookupObj_removeQueue, lookupObj_setMetadata_ne hxa, lookupObj_updateStateBits_ne hxa,
      lookupObj_updateStateBits_ne hxc, lookupObj_setObj_ne hxc]
  · rw [lookupObj_setMetadata_ne hxa, lookupObj_updateStateBits_ne hxa,
      lookupObj_updateStateBits_ne hxc, lookupObj_setObj_ne hxc]

theorem promoteBookkeeping_queue (st2 : GcState) (addr c : Nat)
    (origNow copyObj : GcObject) :
    (promoteBookkeeping st2 addr c origNow copyObj).destructionQueue =
      if origNow.header.alloc_info.nontrivial_drop_index < u32Max
        then st2.destructionQueue.filter (fun b => b ≠ addr)
        else st2.destructionQueue := by
  unfold promoteBookkeeping
  split
  · simp [GcState.removeDestructionQueue]
  · simp

theorem promoteBookkeeping_events (st2 : GcState) (addr c : Nat)
    (origNow copyObj : GcObject) :
    (promoteBookkeeping st2 addr c origNow copyObj).events = st2.events := by
  unfold promoteBookkeeping
  split <;> simp

theorem promoteBookkeeping_nextAddr (st2 : GcState) (addr c : Nat)
    (origNow copyObj : GcObject) :
    (promoteBookkeeping st2 addr c origNow copyObj).nextAddr = st2.nextAddr := by
  unfold promoteBookkeeping
  split <;> simp

theorem promoteBookkeeping_typeInfos (st2 : GcState) (addr c : Nat)
    (origNow copyObj : GcObject) :
    (promoteBookkeeping st2 addr c origNow copyObj).typeInfos = st2.typeInfos := by
  unfold promoteBookkeeping
  split <;> simp

theorem promoteBookkeeping_inverted (st2 : GcState) (addr c : Nat)
    (origNow copyObj : GcObject) :
    (promoteBookkeeping st2 addr c origNow copyObj).mark_bits_inverted
      = st2.mark_bits_inverted := by
  unfold promoteBookkeeping
  split <;> simp

theorem promoteBookkeeping_collectorId (st2 : GcState) (addr c : Nat)
    (origNow copyObj : GcObject) :
    (promoteBookkeeping st2 addr c origNow copyObj).collectorId = st2.collectorId := by
  unfold promoteBookkeeping
  split <;> simp

theorem WF_promoteBookkeeping {st2 : GcState} {addr c : Nat}
    {origNow copyObj : GcObject} (hwf : WFheap st2) :
    WFheap (promoteBookkeeping st2 addr c origNow copyObj) := by
  unfold promoteBookkeeping
  split
  · exact WF_removeQueue (WF_setMetadata (WF_updateStateBits (WF_updateStateBits (WF_setObj hwf))))
  · exact WF_setMetadata (WF_updateStateBits (WF_updateStateBits (WF_setObj hwf)))

/-!
## Characterizing the promotion value copy
-/

theorem promoteCopyValue_lookup_other {st6 : GcState} {addr c nb x : Nat}
    (hxc : x ≠ c) :
    (promoteCopyValue st6 addr c nb).lookupObj x = st6.lookupObj x := by
  unfold promoteCopyValue
  cases hl : st6.lookupObj addr with
  | none => simp
  | some oNow =>
    rw [lookupObj_logEvent, lookupObj_setPayload_ne hxc]

theorem promoteCopyValue_lookup_copy {st6 : GcState} {addr c nb : Nat}
    {oNow cObj : GcObject} (ho : st6.lookupObj addr = some oNow)
    (hc : st6.lookupObj c = some cObj) :
    (promoteCopyValue st6 addr c nb).lookupObj c = some { cObj with payload := oNow.payload } := by
  unfold promoteCopyValue
  rw [ho]
  rw [lookupObj_logEvent, lookupObj_setPayload_self hc]

theorem promoteCopyValue_queue (st6 : GcState) (addr c nb : Nat) :
    (promoteCopyValue st6 addr c nb).destructionQueue = st6.destructionQueue := by
  unfold promoteCopyValue
  cases hl : st6.lookupObj addr <;> simp

theorem promoteCopyValue_events (st6 : GcState) (addr c nb : Nat) :
    (promoteCopyValue st6 addr c nb).events = GcEvent.memcpyBytes nb :: st6.events := by
  unfold promoteCopyValue
  cases hl : st6.lookupObj addr <;> simp

theorem promoteCopyValue_nextAddr (st6 : GcState) (addr c nb : Nat) :
    (promoteCopyValue st6 addr c nb).nextAddr = st6.nextAddr := by
  unfold promoteCopyValue
  cases hl : st6.lookupObj addr <;> simp

theorem promoteCopyValue_typeInfos (st6 : GcState) (addr c nb : Nat) :
    (promoteCopyValue st6 addr c nb).typeInfos = st6.typeInfos := by
  unfold promoteCopyValue
  cases hl : st6.lookupObj addr <;> simp

theorem promoteCopyValue_inverted (st6 : GcState) (addr c nb : Nat) :
    (promoteCopyValue st6 addr c nb).mark_bits_inverted = st6.mark_bits_inverted := by
  unfold promoteCopyValue
  cases hl : st6.lookupObj addr <;> simp

theorem promoteCopyValue_collectorId (st6 : GcState) (addr c nb : Nat) :
    (promoteCopyValue st6 addr c nb).collectorId = st6.collectorId := by
  unfold promoteCopyValue
  cases hl : st6.lookupObj addr <;> simp

theorem WF_promoteCopyValue {st6 : GcState} {addr c nb : Nat} (hwf : WFheap st6) :
    WFheap (promoteCopyValue st6 addr c nb) := by
  unfold promoteCopyValue
  cases hl : st6.lookupObj addr with
  | none => exact hwf
  | some oNow => exact WF_logEvent (WF_setPayload hwf)

/-!
## Running the fallback path
-/

@[simp] theorem updateStateBits_getTi (st : GcState) (a : Nat) (f : GcStateBits → GcStateBits)
    (i : Nat) : (st.updateStateBits a f).getTi i = st.getTi i :=
  getTi_congr (updateStateBits_typeInfos st a f) i

theorem getTi_heapPush (st1 : GcState) (k n2 ob : Nat) (v : GcObject) (i : Nat) :
    (({ st1 with heap := st1.heap ++ [(k, v)], nextAddr := n2, oldBytes := ob } : GcState).getTi i)
      = st1.getTi i := rfl

@[simp] theorem promoteBookkeeping_getTi (st2 : GcState) (addr c : Nat)
    (origNow copyObj : GcObject) (i : Nat) :
    (promoteBookkeeping st2 addr c origNow copyObj).getTi i = st2.getTi i :=
  getTi_congr (promoteBookkeeping_typeInfos st2 addr c origNow copyObj) i

theorem WF_heapPush {st1 : GcState} {v : GcObject} {k : Nat} (hk : st1.nextAddr = k)
    (hwf : WFheap st1) (ob : Nat) :
    WFheap ({ st1 with heap := st1.heap ++ [(k, v)], nextAddr := k + 1, oldBytes := ob } : GcState) := by
  intro p hp
  show p.1 < k + 1
  rcases List.mem_append.mp hp with h | h
  · have := hwf p h
    omega
  · have hpk : p = (k, v) := by simpa using h
    rw [hpk]
    omega

theorem oldAllocRaw_ok_inv {st : GcState} {t : AllocTarget} {c : Nat} {st2 : GcState}
    (h : oldAllocRaw st t = some (c, st2)) :
    st.oldOom = false ∧ c = st.nextAddr ∧
      st2 = { st with heap := st.heap ++ [(st.nextAddr, mkAllocObject st t .Old)]
                      nextAddr := st.nextAddr + 1
                      oldBytes := st.oldBytes + t.overallBytes (st.getTi t.tiIdx) } := by
  unfold oldAllocRaw at h
  by_cases ho : st.oldOom = true
  · rw [if_pos ho] at h
    cases h
  · rw [if_neg ho] at h
    have h' := Option.some.inj h
    rw [Prod.mk.injEq] at h'
    refine ⟨?_, h'.1.symm, h'.2.symm⟩
    cases hb : st.oldOom
    · rfl
    · exact absurd hb ho

/-- Under the old-generation hypotheses, `fallbackG` just marks the
header black and traces it in place. -/
theorem fallbackG_old_eq {tc : GcState → Nat → StRes} {st : GcState} {addr tiIdx : Nat}
    {obj : GcObject} (hl : st.lookupObj addr = some obj)
    (hm : obj.header.metadata = .typeInfo tiIdx)
    (hg : obj.header.state_bits.generation = .Old) :
    fallbackG tc st addr = traceValueG tc
      (st.updateStateBits addr
        (fun b => { b with raw_mark_bits := GcMarkBits.Black.toRaw st.mark_bits_inverted }))
      addr tiIdx := by
  unfold fallbackG
  rw [hl]
  dsimp only
  rw [hm]
  dsimp only
  rw [hg]

/-- Continuation-passing run of the young promotion path: any goal
about `fallbackG` under the young hypotheses reduces to the same goal
about `traceValueG` started from a state satisfying `MidFacts`. -/
theorem fallbackG_young_run {tc : GcState → Nat → StRes} {st : GcState} {addr tiIdx : Nat}
    {obj : GcObject} (hwf : WFheap st)
    (hl : st.lookupObj addr = some obj)
    (hm : obj.header.metadata = .typeInfo tiIdx)
    (hg : obj.header.state_bits.generation = .Young)
    (hoom : st.oldOom = false)
    (P : GcRes → Prop)
    (hP : ∀ stMid, MidFacts st addr obj tiIdx stMid →
      P (traceValueG tc stMid st.nextAddr tiIdx)) :
    P (fallbackG tc st addr) := by
  have haddrlt : addr < st.nextAddr := hwf _ (lookupA_some_mem hl)
  have hane : addr ≠ st.nextAddr := by omega
  unfold fallbackG
  rw [hl]
  dsimp only
  rw [hm]
  dsimp only
  rw [hg]
  dsimp only
  split
  · next heq =>
    exfalso
    unfold oldAllocRaw at heq
    rw [updateStateBits_oldOom, hoom] at heq
    simp at heq
  · next c st2 heq =>
    obtain ⟨-, hc, hst2⟩ := oldAllocRaw_ok_inv heq
    rw [updateStateBits_nextAddr] at hc
    subst hst2
    subst hc
    simp only [updateStateBits_nextAddr] at *
    split
    · next origNow copyObj heq1 heq2 =>
      have e3 := heq1
      have e4 := heq2
      rw [lookupObj_heapPush_eq, lookupObj_updateStateBits_self hl] at heq1
      dsimp only at heq1
      injection heq1 with heq1
      subst heq1
      rw [lookupObj_heapPush_eq, lookupObj_updateStateBits_fresh hwf] at heq2
      dsimp only at heq2
      rw [if_pos rfl] at heq2
      injection heq2 with heq2
      subst heq2
      apply hP
      refine ⟨?_, ?_, ?_, ?_, ?_, ?_, ?_, ?_, ?_, ?_⟩
      · rw [promoteCopyValue_lookup_other hane, promoteBookkeeping_lookup_addr hane e3]
      · rw [promoteCopyValue_lookup_copy (promoteBookkeeping_lookup_addr hane e3)
          (promoteBookkeeping_lookup_copy hane e4)]
        simp [mkAllocObject, AllocTarget.needsDrop, initStateBits]
      · intro x hxa hxc
        rw [promoteCopyValue_lookup_other hxc, promoteBookkeeping_lookup_other hxa hxc,
          lookupObj_heapPush_eq, lookupObj_updateStateBits_ne hxa]
        cases hx : st.lookupObj x
        · dsimp only
          rw [if_neg hxc]
        · rfl
      · rw [promoteCopyValue_queue, promoteBookkeeping_queue]
        dsimp only
        rw [updateStateBits_queue]
      · rw [promoteCopyValue_events, promoteBookkeeping_events]
        dsimp only
        rw [updateStateBits_events]
        simp only [GcState.getTi, promoteBookkeeping_typeInfos, updateStateBits_typeInfos]
      · rw [promoteCopyValue_nextAddr, promoteBookkeeping_nextAddr]
      · rw [promoteCopyValue_typeInfos, promoteBookkeeping_typeInfos]
        dsimp only
        rw [updateStateBits_typeInfos]
      · rw [promoteCopyValue_inverted, promoteBookkeeping_inverted]
        dsimp only
        rw [updateStateBits_inverted]
      · rw [promoteCopyValue_collectorId, promoteBookkeeping_collectorId]
        dsimp only
        rw [updateStateBits_collectorId]
      · exact WF_promoteCopyValue (WF_promoteBookkeeping
          (WF_heapPush (updateStateBits_nextAddr st addr _) (WF_updateStateBits hwf) _))
    · next v1 v2 hno =>
      exfalso
      exact hno _ _
        (by rw [lookupObj_heapPush_eq, lookupObj_updateStateBits_self hl])
        (by rw [lookupObj_heapPush_eq, lookupObj_updateStateBits_fresh hwf]
            dsimp only
            rw [if_pos rfl])

/-!
## The Pres calculus
-/

theorem Pres.rfl (ex : Option Nat) (st : GcState) : Pres ex st st where
  colId := Eq.refl _
  inv := Eq.refl _
  tis := Eq.refl _
  next_mono := Nat.le_refl _
  dom_mono := fun a o h => ⟨o, h, Eq.refl _⟩
  queue_sub := fun _ h => h
  fwd_keep := fun a o h _ => ⟨o, h, Eq.refl _, fun _ => Eq.refl _⟩
  black_keep := fun a o h _ _ => ⟨o, h, Eq.refl _, fun _ => Eq.refl _⟩
  wf := fun h => h
  ev_mono := ⟨[], by simp, by simp⟩
  disp_count := fun _ _ _ _ => Eq.refl _

theorem Pres.weaken {st st' : GcState} (ex : Option Nat) (h : Pres none st st') :
    Pres ex st st' where
  colId := h.colId
  inv := h.inv
  tis := h.tis
  next_mono := h.next_mono
  dom_mono := h.dom_mono
  queue_sub := h.queue_sub
  fwd_keep := fun a o hl hf =>
    let ⟨o', hl', hh, he⟩ := h.fwd_keep a o hl hf
    ⟨o', hl', hh, fun _ => he (by simp)⟩
  black_keep := fun a o hl hf hb =>
    let ⟨o', hl', hh, he⟩ := h.black_keep a o hl hf hb
    ⟨o', hl', hh, fun _ => he (by simp)⟩
  wf := h.wf
  ev_mono := h.ev_mono
  disp_count := fun o i _ hs => h.disp_count o i (by simp) hs

theorem settled_transport {ex : Option Nat} {st st' : GcState} {a : Nat}
    (hp : Pres ex st st') (h : settled st a) : settled st' a := by
  obtain ⟨o, hl, hfb⟩ := h
  rcases hfb with hf | hb
  · obtain ⟨o', hl', hh, _⟩ := hp.fwd_keep a o hl hf
    exact ⟨o', hl', Or.inl (by rw [hh, hf])⟩
  · by_cases hf : o.header.state_bits.forwarded = true
    · obtain ⟨o', hl', hh, _⟩ := hp.fwd_keep a o hl hf
      exact ⟨o', hl', Or.inl (by rw [hh, hf])⟩
    · have hf' : o.header.state_bits.forwarded = false := by
        cases hx : o.header.state_bits.forwarded
        · rfl
        · exact absurd hx hf
      obtain ⟨o', hl', hh, _⟩ := hp.black_keep a o hl hf' hb
      refine ⟨o', hl', Or.inr ?_⟩
      rw [hh, hp.inv]
      exact hb

theorem resolveForward_stable {ex : Option Nat} {st st' : GcState} {a : Nat}
    (hp : Pres ex st st') (h : settled st a) :
    resolveForward st' a = resolveForward st a := by
  obtain ⟨o, hl, hfb⟩ := h
  by_cases hf : o.header.state_bits.forwarded = true
  · obtain ⟨o', hl', hh, _⟩ := hp.fwd_keep a o hl hf
    rw [resolveForward, resolveForward, hl, hl']
    dsimp only
    rw [hh]
  · have hf' : o.header.state_bits.forwarded = false := by
      cases hx : o.header.state_bits.forwarded
      · rfl
      · exact absurd hx hf
    rcases hfb with hfc | hb
    · exact absurd hfc hf
    · obtain ⟨o', hl', hh, _⟩ := hp.black_keep a o hl hf' hb
      rw [resolveForward, resolveForward, hl, hl']
      dsimp only
      rw [hh]

theorem Pres.trans {ex : Option Nat} {st st' st'' : GcState}
    (h1 : Pres ex st st') (h2 : Pres ex st' st'') : Pres ex st st'' where
  colId := h2.colId.trans h1.colId
  inv := h2.inv.trans h1.inv
  tis := h2.tis.trans h1.tis
  next_mono := Nat.le_trans h1.next_mono h2.next_mono
  dom_mono := fun a o hl =>
    let ⟨o', hl', hc'⟩ := h1.dom_mono a o hl
    let ⟨o'', hl'', hc''⟩ := h2.dom_mono a o' hl'
    ⟨o'', hl'', hc''.trans hc'⟩
  queue_sub := fun a h => h1.queue_sub a (h2.queue_sub a h)
  fwd_keep := fun a o hl hf => by
    obtain ⟨o', hl', hh', he'⟩ := h1.fwd_keep a o hl hf
    obtain ⟨o'', hl'', hh'', he''⟩ := h2.fwd_keep a o' hl' (by rw [hh', hf])
    exact ⟨o'', hl'', hh''.trans hh', fun hne => (he'' hne).trans (he' hne)⟩
  black_keep := fun a o hl hf hb => by
    obtain ⟨o', hl', hh', he'⟩ := h1.black_keep a o hl hf hb
    obtain ⟨o'', hl'', hh'', he''⟩ := h2.black_keep a o' hl' (by rw [hh', hf])
      (by rw [hh', h1.inv]; exact hb)
    exact ⟨o'', hl'', hh''.trans hh', fun hne => (he'' hne).trans (he' hne)⟩
  wf := fun h => h2.wf (h1.wf h)
  ev_mono := by
    obtain ⟨e1, he1, ht1⟩ := h1.ev_mono
    obtain ⟨e2, he2, ht2⟩ := h2.ev_mono
    refine ⟨e2 ++ e1, by rw [he2, he1, List.append_assoc], ?_⟩
    intro e he
    rcases List.mem_append.mp he with h | h
    · exact ht2 e h
    · exact ht1 e h
  disp_count := fun o i hne hs => by
    rw [h2.disp_count o i hne (settled_transport h1 hs), h1.disp_count o i hne hs]

theorem Pres_setCell (st : GcState) (a i v : Nat) : Pres (some a) st (st.setCell a i v) where
  colId := by simp
  inv := by simp
  tis := by simp
  next_mono := by simp
  dom_mono := fun b o hl => by
    by_cases hb : b = a
    · subst hb
      exact ⟨_, lookupObj_setCell_self hl, rfl⟩
    · exact ⟨o, by rw [lookupObj_setCell_ne hb]; exact hl, rfl⟩
  queue_sub := fun b h => by simpa using h
  fwd_keep := fun b o hl _ => by
    by_cases hb : b = a
    · subst hb
      exact ⟨_, lookupObj_setCell_self hl, rfl, fun hne => ((hne rfl).elim)⟩
    · exact ⟨o, by rw [lookupObj_setCell_ne hb]; exact hl, rfl, fun _ => rfl⟩
  black_keep := fun b o hl _ _ => by
    by_cases hb : b = a
    · subst hb
      exact ⟨_, lookupObj_setCell_self hl, rfl, fun hne => ((hne rfl).elim)⟩
    · exact ⟨o, by rw [lookupObj_setCell_ne hb]; exact hl, rfl, fun _ => rfl⟩
  wf := WF_setCell
  ev_mono := ⟨[], by simp, by simp⟩
  disp_count := fun _ _ _ _ => by simp

theorem Pres_logTraceDispatch (st : GcState) (owner i : Nat) :
    Pres (some owner) st (st.logEvent (.traceDispatch owner i)) where
  colId := rfl
  inv := rfl
  tis := rfl
  next_mono := Nat.le_refl _
  dom_mono := fun a o hl => ⟨o, hl, rfl⟩
  queue_sub := fun _ h => h
  fwd_keep := fun a o hl _ => ⟨o, hl, rfl, fun _ => rfl⟩
  black_keep := fun a o hl _ _ => ⟨o, hl, rfl, fun _ => rfl⟩
  wf := fun h => h
  ev_mono := ⟨[.traceDispatch owner i], by simp, by simp [GcEvent.isTraceEvent]⟩
  disp_count := fun o' i' hne _ => by
    have ho : o' ≠ owner := fun h => hne (by rw [h])
    simp [List.count_cons, ho]

/-!
## Preservation through the tracing loops
-/

theorem traceCellListG_pres {cf : GcState → Nat → GcRes} (hcf : CSpec cf) (owner : Nat) :
    ∀ (cells : List Nat) (st st' : GcState), WFheap st →
      traceCellListG cf owner cells st = .ok st' → Pres (some owner) st st' := by
  intro cells
  induction cells with
  | nil =>
    intro st st' _ hok
    simp only [traceCellListG] at hok
    cases hok
    exact Pres.rfl _ _
  | cons c rest ih =>
    intro st st' hwf hok
    simp only [traceCellListG] at hok
    cases hl : st.lookupObj owner with
    | none => rw [hl] at hok; cases hok
    | some o =>
      rw [hl] at hok
      dsimp only at hok
      cases hcall : cf st (o.payload.getD c 0) with
      | fatal m => rw [hcall] at hok; cases hok
      | outOfFuel => rw [hcall] at hok; cases hok
      | ok r st1 =>
        rw [hcall] at hok
        obtain ⟨hp1, -, -⟩ := hcf st _ r st1 hwf hcall
        have hwf1 : WFheap st1 := hp1.wf hwf
        have hp2 := Pres_setCell st1 owner c r
        have hwf2 : WFheap (st1.setCell owner c r) := WF_setCell hwf1
        have hp3 := ih _ st' hwf2 hok
        exact ((Pres.weaken (some owner) hp1).trans hp2).trans hp3

theorem traceElementsG_pres {cf : GcState → Nat → GcRes} (hcf : CSpec cf)
    (owner elemCells : Nat) (offs : List Nat) :
    ∀ (idxs : List Nat) (st st' : GcState), WFheap st →
      traceElementsG cf owner elemCells offs idxs st = .ok st' → Pres (some owner) st st' := by
  intro idxs
  induction idxs with
  | nil =>
    intro st st' _ hok
    simp only [traceElementsG] at hok
    cases hok
    exact Pres.rfl _ _
  | cons i rest ih =>
    intro st st' hwf hok
    simp only [traceElementsG] at hok
    cases hcl : traceCellListG cf owner (offs.map fun off => i * elemCells + off)
        (st.logEvent (.traceDispatch owner i)) with
    | fatal m => rw [hcl] at hok; cases hok
    | outOfFuel => rw [hcl] at hok; cases hok
    | ok st1 =>
      rw [hcl] at hok
      have hpd := Pres_logTraceDispatch st owner i
      have hp1 := traceCellListG_pres hcf owner _ _ _ (WF_logEvent hwf) hcl
      have hp2 := ih _ _ (hp1.wf (WF_logEvent hwf)) hok
      exact (hpd.trans hp1).trans hp2

theorem trace_childrenG_pres {cf : GcState → Nat → GcRes} (hcf : CSpec cf) :
    ∀ (st : GcState) (owner : Nat) (st' : GcState), WFheap st →
      trace_childrenG cf st owner = .ok st' → Pres (some owner) st st' := by
  intro st owner st' hwf hok
  simp only [trace_childrenG] at hok
  cases hl : st.lookupObj owner with
  | none => rw [hl] at hok; cases hok
  | some o =>
    rw [hl] at hok
    dsimp only at hok
    cases hm : o.header.metadata with
    | forwardPtr p => rw [hm] at hok; cases hok
    | typeInfo tiIdx =>
      rw [hm] at hok
      cases ha : o.header.state_bits.array with
      | true =>
        rw [ha] at hok
        simp only [if_true] at hok
        exact traceElementsG_pres hcf owner _ _ _ _ _ hwf hok
      | false =>
        rw [ha] at hok
        simp only [Bool.false_eq_true, if_false] at hok
        exact (Pres_logTraceDispatch st owner 0).trans
          (traceCellListG_pres hcf owner _ _ _ (WF_logEvent hwf) hok)

/-!
## From the fallback run to clean preservation
-/

theorem resolveRaw_toRaw (inverted : Bool) (m : GcMarkBits) :
    GcMarkBits.resolveRaw inverted (m.toRaw inverted) = m := by
  cases m <;> cases inverted <;> rfl

theorem not_settled_of_white {st : GcState} {addr : Nat} {obj : GcObject}
    (hl : st.lookupObj addr = some obj)
    (hf : obj.header.state_bits.forwarded = false)
    (hw : GcMarkBits.resolveRaw st.mark_bits_inverted obj.header.state_bits.raw_mark_bits
      = GcMarkBits.White) : ¬ settled st addr := by
  rintro ⟨o, hlo, hfb⟩
  rw [hl] at hlo
  injection hlo with hlo
  subst hlo
  rcases hfb with h | h
  · rw [hf] at h
    cases h
  · rw [hw] at h
    cases h

theorem not_settled_of_fresh {st : GcState} {addr : Nat}
    (hl : st.lookupObj addr = none) : ¬ settled st addr := by
  rintro ⟨o, hlo, -⟩
  rw [hl] at hlo
  cases hlo

/-- Composing a step that only disturbs unsettled objects with a step
whose exception address was unsettled at the start yields a clean
preservation. -/
theorem Pres.trans_absorb {st st1 st' : GcState} {a : Nat}
    (h1 : Pres none st st1) (hns : ¬ settled st a) (h2 : Pres (some a) st1 st') :
    Pres none st st' where
  colId := h2.colId.trans h1.colId
  inv := h2.inv.trans h1.inv
  tis := h2.tis.trans h1.tis
  next_mono := Nat.le_trans h1.next_mono h2.next_mono
  dom_mono := fun b o hl =>
    let ⟨o', hl', hc'⟩ := h1.dom_mono b o hl
    let ⟨o'', hl'', hc''⟩ := h2.dom_mono b o' hl'
    ⟨o'', hl'', hc''.trans hc'⟩
  queue_sub := fun b h => h1.queue_sub b (h2.queue_sub b h)
  fwd_keep := fun b o hl hf => by
    have hba : b ≠ a := fun hba => hns (hba ▸ ⟨o, hl, Or.inl hf⟩)
    obtain ⟨o', hl', hh', he'⟩ := h1.fwd_keep b o hl hf
    have ho' : o' = o := he' (by simp)
    subst ho'
    obtain ⟨o'', hl'', hh'', he''⟩ := h2.fwd_keep b o' hl' hf
    exact ⟨o'', hl'', hh'', fun _ => he'' (by simpa using hba)⟩
  black_keep := fun b o hl hf hb => by
    have hba : b ≠ a := fun hba => hns (hba ▸ ⟨o, hl, Or.inr hb⟩)
    obtain ⟨o', hl', hh', he'⟩ := h1.black_keep b o hl hf hb
    have ho' : o' = o := he' (by simp)
    subst ho'
    obtain ⟨o'', hl'', hh'', he''⟩ := h2.black_keep b o' hl' hf (by rw [h1.inv]; exact hb)
    exact ⟨o'', hl'', hh'', fun _ => he'' (by simpa using hba)⟩
  wf := fun h => h2.wf (h1.wf h)
  ev_mono := by
    obtain ⟨e1, he1, ht1⟩ := h1.ev_mono
    obtain ⟨e2, he2, ht2⟩ := h2.ev_mono
    refine ⟨e2 ++ e1, by rw [he2, he1, List.append_assoc], ?_⟩
    intro e he
    rcases List.mem_append.mp he with h | h
    · exact ht2 e h
    · exact ht1 e h
  disp_count := fun o i _ hs => by
    have hoa : o ≠ a := fun hoa => hns (hoa ▸ hs)
    rw [h2.disp_count o i (by simpa using hoa) (settled_transport h1 hs),
      h1.disp_count o i (by simp) hs]

/-- Marking a white unforwarded header black preserves everything
settled. -/
theorem Pres_markBlack {st : GcState} {addr : Nat} {obj : GcObject}
    (hl : st.lookupObj addr = some obj)
    (hf : obj.header.state_bits.forwarded = false)
    (hw : GcMarkBits.resolveRaw st.mark_bits_inverted obj.header.state_bits.raw_mark_bits
      = GcMarkBits.White)
    (f : GcStateBits → GcStateBits) :
    Pres none st (st.updateStateBits addr f) where
  colId := by simp
  inv := by simp
  tis := by simp
  next_mono := by simp
  dom_mono := fun b o hlo => by
    by_cases hb : b = addr
    · subst hb
      rw [hl] at hlo
      injection hlo with hlo
      subst hlo
      exact ⟨_, lookupObj_updateStateBits_self hl, rfl⟩
    · exact ⟨o, by rw [lookupObj_updateStateBits_ne hb]; exact hlo, rfl⟩
  queue_sub := fun b h => by simpa using h
  fwd_keep := fun b o hlo hfo => by
    by_cases hb : b = addr
    · subst hb
      rw [hl] at hlo
      injection hlo with hlo
      subst hlo
      rw [hf] at hfo
      cases hfo
    · exact ⟨o, by rw [lookupObj_updateStateBits_ne hb]; exact hlo, rfl, fun _ => rfl⟩
  black_keep := fun b o hlo hfo hbo => by
    by_cases hb : b = addr
    · subst hb
      rw [hl] at hlo
      injection hlo with hlo
      subst hlo
      rw [hw] at hbo
      cases hbo
    · exact ⟨o, by rw [lookupObj_updateStateBits_ne hb]; exact hlo, rfl, fun _ => rfl⟩
  wf := WF_updateStateBits
  ev_mono := ⟨[], by simp, by simp⟩
  disp_count := fun _ _ _ _ => by simp

/-- The promotion mid state preserves everything settled in the entry
state. -/
theorem midFacts_pres {st : GcState} {addr tiIdx : Nat} {obj : GcObject} {stMid : GcState}
    (hwf : WFheap st) (hl : st.lookupObj addr = some obj)
    (hf : obj.header.state_bits.forwarded = false)
    (hw : GcMarkBits.resolveRaw st.mark_bits_inverted obj.header.state_bits.raw_mark_bits
      = GcMarkBits.White)
    (hmf : MidFacts st addr obj tiIdx stMid) : Pres none st stMid where
  colId := hmf.colId
  inv := hmf.inv
  tis := hmf.tis
  next_mono := by rw [hmf.next]; omega
  dom_mono := fun b o hlo => by
    by_cases hb : b = addr
    · subst hb
      rw [hl] at hlo
      injection hlo with hlo
      subst hlo
      exact ⟨_, hmf.orig, rfl⟩
    · have hbn : b ≠ st.nextAddr := by
        have := hwf _ (lookupA_some_mem hlo)
        omega
      exact ⟨o, by rw [hmf.others b hb hbn]; exact hlo, rfl⟩
  queue_sub := fun b h => by
    rw [hmf.queue] at h
    by_cases hd : obj.header.alloc_info.nontrivial_drop_index < u32Max
    · rw [if_pos hd] at h
      exact (List.mem_filter.mp h).1
    · rw [if_neg hd] at h
      exact h
  fwd_keep := fun b o hlo hfo => by
    by_cases hb : b = addr
    · subst hb
      rw [hl] at hlo
      injection hlo with hlo
      subst hlo
      rw [hf] at hfo
      cases hfo
    · have hbn : b ≠ st.nextAddr := by
        have := hwf _ (lookupA_some_mem hlo)
        omega
      exact ⟨o, by rw [hmf.others b hb hbn]; exact hlo, rfl, fun _ => rfl⟩
  black_keep := fun b o hlo hfo hbo => by
    by_cases hb : b = addr
    · subst hb
      rw [hl] at hlo
      injection hlo with hlo
      subst hlo
      rw [hw] at hbo
      cases hbo
    · have hbn : b ≠ st.nextAddr := by
        have := hwf _ (lookupA_some_mem hlo)
        omega
      exact ⟨o, by rw [hmf.others b hb hbn]; exact hlo, rfl, fun _ => rfl⟩
  wf := fun _ => hmf.wf
  ev_mono := ⟨[GcEvent.memcpyBytes (if obj.header.state_bits.array
      then obj.header.len_elements * (st.getTi tiIdx).valueSize
      else (st.getTi tiIdx).valueSize)], by rw [hmf.events]; rfl,
    by simp [GcEvent.isTraceEvent]⟩
  disp_count := fun o i _ _ => by
    rw [hmf.events]
    simp [List.count_cons]

theorem traceValueG_pres {tc : GcState → Nat → StRes} (htc : TCSpec tc)
    {st : GcState} {ptr tiIdx r : Nat} {st' : GcState} (hwf : WFheap st)
    (hok : traceValueG tc st ptr tiIdx = .ok r st') :
    r = ptr ∧ Pres (some ptr) st st' := by
  unfold traceValueG at hok
  cases hti : (st.getTi tiIdx).traceCells with
  | none =>
    rw [hti] at hok
    injection hok with h1 h2
    subst h1
    subst h2
    exact ⟨rfl, Pres.rfl _ _⟩
  | some cells =>
    rw [hti] at hok
    dsimp only at hok
    cases htc' : tc st ptr with
    | fatal m => rw [htc'] at hok; cases hok
    | outOfFuel => rw [htc'] at hok; cases hok
    | ok st1 =>
      rw [htc'] at hok
      injection hok with h1 h2
      subst h1
      subst h2
      exact ⟨rfl, htc st ptr _ hwf htc'⟩

theorem fallbackG_young_oom {tc : GcState → Nat → StRes} {st : GcState} {addr tiIdx : Nat}
    {obj : GcObject} (hl : st.lookupObj addr = some obj)
    (hm : obj.header.metadata = .typeInfo tiIdx)
    (hg : obj.header.state_bits.generation = .Young)
    (ho : st.oldOom = true) :
    fallbackG tc st addr = .fatal "Oldgen alloc failure" := by
  unfold fallbackG
  rw [hl]
  dsimp only
  rw [hm]
  dsimp only
  rw [hg]
  dsimp only
  split
  · rfl
  · next c st2 heq =>
    exfalso
    obtain ⟨hO, -, -⟩ := oldAllocRaw_ok_inv heq
    rw [updateStateBits_oldOom, ho] at hO
    cases hO

theorem fallbackG_pres {tc : GcState → Nat → StRes} (htc : TCSpec tc)
    {st : GcState} {addr : Nat} {obj : GcObject} {r : Nat} {st' : GcState}
    (hwf : WFheap st) (hl : st.lookupObj addr = some obj)
    (hf : obj.header.state_bits.forwarded = false)
    (hw : GcMarkBits.resolveRaw st.mark_bits_inverted obj.header.state_bits.raw_mark_bits
      = GcMarkBits.White)
    (hok : fallbackG tc st addr = .ok r st') :
    Pres none st st' ∧ r = resolveForward st' addr ∧ settled st' addr := by
  cases hm : obj.header.metadata with
  | forwardPtr p =>
    unfold fallbackG at hok
    rw [hl] at hok
    dsimp only at hok
    rw [hm] at hok
    dsimp only at hok
    cases hok
  | typeInfo tiIdx =>
    cases hgen : obj.header.state_bits.generation with
    | Old =>
      rw [fallbackG_old_eq hl hm hgen] at hok
      obtain ⟨hr, hp2⟩ := traceValueG_pres htc (WF_updateStateBits hwf) hok
      have h1 := Pres_markBlack hl hf hw
        (fun b => { b with raw_mark_bits := GcMarkBits.Black.toRaw st.mark_bits_inverted })
      have hns := not_settled_of_white hl hf hw
      have hpres := Pres.trans_absorb h1 hns hp2
      have hset1 : settled (st.updateStateBits addr
          (fun b => { b with raw_mark_bits := GcMarkBits.Black.toRaw st.mark_bits_inverted }))
          addr := by
        refine ⟨_, lookupObj_updateStateBits_self hl, Or.inr ?_⟩
        simp only [updateStateBits_inverted]
        exact resolveRaw_toRaw st.mark_bits_inverted GcMarkBits.Black
      have hrf1 : resolveForward (st.updateStateBits addr
          (fun b => { b with raw_mark_bits := GcMarkBits.Black.toRaw st.mark_bits_inverted }))
          addr = addr := by
        unfold resolveForward
        rw [lookupObj_updateStateBits_self hl]
        dsimp only
        rw [hf]
        simp
      refine ⟨hpres, ?_, settled_transport hp2 hset1⟩
      rw [hr, resolveForward_stable hp2 hset1, hrf1]
    | Young =>
      by_cases hoom : st.oldOom = false
      · revert hok
        refine fallbackG_young_run hwf hl hm hgen hoom
          (fun res => res = .ok r st' →
            Pres none st st' ∧ r = resolveForward st' addr ∧ settled st' addr) ?_
        intro stMid hmf hok2
        obtain ⟨hr, hp2⟩ := traceValueG_pres htc hmf.wf hok2
        subst hr
        have h1 := midFacts_pres hwf hl hf hw hmf
        have hns := not_settled_of_fresh (lookupObj_fresh hwf)
        have hpres := Pres.trans_absorb h1 hns hp2
        have hsetm : settled stMid addr := ⟨_, hmf.orig, Or.inl rfl⟩
        have hrfm : resolveForward stMid addr = st.nextAddr := by
          unfold resolveForward
          rw [hmf.orig]
          rfl
        refine ⟨hpres, ?_, settled_transport hp2 hsetm⟩
        rw [resolveForward_stable hp2 hsetm, hrfm]
      · have ho : st.oldOom = true := by
          cases hb : st.oldOom
          · exact absurd hb hoom
          · rfl
        rw [fallbackG_young_oom hl hm hgen ho] at hok
        cases hok

theorem collectG_pres {tc : GcState → Nat → StRes} (htc : TCSpec tc) :
    CSpec (collectG tc) := by
  intro st a r st' hwf hok
  unfold collectG at hok
  cases hl : st.lookupObj a with
  | none => rw [hl] at hok; cases hok
  | some obj =>
    rw [hl] at hok
    dsimp only at hok
    by_cases hid : obj.header.collector_id = st.collectorId
    · rw [if_pos hid] at hok
      cases hfw : obj.header.state_bits.forwarded with
      | true =>
        rw [hfw] at hok
        rw [if_pos rfl] at hok
        cases hm : obj.header.metadata with
        | forwardPtr p =>
          rw [hm] at hok
          dsimp only at hok
          injection hok with h1 h2
          subst h1
          subst h2
          refine ⟨Pres.rfl _ _, ?_, ⟨obj, hl, Or.inl hfw⟩⟩
          have hres : resolveForward st a = p := by
            unfold resolveForward
            rw [hl]
            dsimp only
            rw [hfw, if_pos rfl, hm]
          exact hres.symm
        | typeInfo ti =>
          rw [hm] at hok
          dsimp only at hok
          cases hok
      | false =>
        rw [hfw] at hok
        rw [if_neg (by simp)] at hok
        cases hmk : GcMarkBits.resolveRaw st.mark_bits_inverted
            obj.header.state_bits.raw_mark_bits with
        | Black =>
          rw [hmk] at hok
          dsimp only at hok
          injection hok with h1 h2
          subst h1
          subst h2
          refine ⟨Pres.rfl _ _, ?_, ⟨obj, hl, Or.inr hmk⟩⟩
          have hres : resolveForward st a = a := by
            unfold resolveForward
            rw [hl]
            dsimp only
            rw [hfw]
            simp
          exact hres.symm
        | White =>
          rw [hmk] at hok
          dsimp only at hok
          exact fallbackG_pres htc hwf hl hfw hmk hok
    · rw [if_neg hid] at hok
      cases hok

theorem tcFuel_spec : ∀ fuel : Nat, TCSpec (traceChildrenFuel fuel) := by
  intro fuel
  induction fuel with
  | zero =>
    intro st o st' _ hok
    simp only [traceChildrenFuel] at hok
    cases hok
  | succ f ih =>
    intro st o st' hwf hok
    simp only [traceChildrenFuel] at hok
    exact trace_childrenG_pres (collectG_pres ih) st o st' hwf hok

theorem collect_gcheader_spec (fuel : Nat) : CSpec (collect_gcheader fuel) :=
  collectG_pres (tcFuel_spec fuel)

theorem fallback_pres (fuel : Nat) {st : GcState} {addr : Nat} {obj : GcObject}
    {r : Nat} {st' : GcState} (hwf : WFheap st) (hl : st.lookupObj addr = some obj)
    (hf : obj.header.state_bits.forwarded = false)
    (hw : GcMarkBits.resolveRaw st.mark_bits_inverted obj.header.state_bits.raw_mark_bits
      = GcMarkBits.White)
    (hok : fallback_collect_gc_header fuel st addr = .ok r st') :
    Pres none st st' ∧ r = resolveForward st' addr ∧ settled st' addr :=
  fallbackG_pres (tcFuel_spec fuel) hwf hl hf hw hok

/-!
## Allocation inversion lemmas
-/

theorem youngAllocRaw_ok_inv {st : GcState} {t : AllocTarget} {a : Nat} {st' : GcState}
    (h : youngAllocRaw st t = .ok (a, st')) :
    a = st.nextAddr ∧
      st' = { st with
              heap := st.heap ++ [(st.nextAddr, mkAllocObject st t .Young)]
              nextAddr := st.nextAddr + 1
              youngBytes := st.youngBytes + t.overallBytes (st.getTi t.tiIdx)
              destructionQueue :=
                if t.needsDrop (st.getTi t.tiIdx) then st.nextAddr :: st.destructionQueue
                else st.destructionQueue } := by
  unfold youngAllocRaw at h
  dsimp only at h
  by_cases h1 : YOUNG_MAX_OBJECT_BYTES < t.overallBytes (st.getTi t.tiIdx)
  · rw [if_pos h1] at h
    cases h
  · rw [if_neg h1] at h
    by_cases h2 : YOUNG_REGION_BYTES < st.youngBytes + t.overallBytes (st.getTi t.tiIdx)
    · rw [if_pos h2] at h
      cases h
    · rw [if_neg h2] at h
      injection h with h
      rw [Prod.mk.injEq] at h
      exact ⟨h.1.symm, h.2.symm⟩

theorem lookupA_filter_ne_self (h : List (Nat × GcObject)) (a : Nat) :
    lookupA (h.filter (fun p => p.1 ≠ a)) a = none := by
  induction h with
  | nil => rfl
  | cons p rest ih =>
    by_cases hp : p.1 = a
    · simp only [List.filter_cons]
      rw [if_neg (by simp [hp])]
      exact ih
    · simp only [List.filter_cons]
      rw [if_pos (by simp [hp])]
      simp only [lookupA, if_neg hp]
      exact ih

theorem destroy_uninit_lookup_self (st : GcState) (a : Nat) :
    (destroy_uninit_object st a).lookupObj a = none := by
  unfold destroy_uninit_object
  exact lookupA_filter_ne_self st.heap a

/-- Inversion of a successful `alloc_raw`: the result is the fresh
address, holding a freshly initialized header (uninitialized value) in
one of the two generations. -/
theorem alloc_raw_ok_spec {st : GcState} {t : AllocTarget} {a : Nat} {st1 : GcState}
    (hwf : WFheap st) (h : alloc_raw st t = .ok a st1) :
    ∃ gen, a = st.nextAddr ∧ st1.lookupObj a = some (mkAllocObject st t gen) := by
  unfold alloc_raw at h
  cases hy : youngAllocRaw st t with
  | ok p =>
    obtain ⟨a', st'⟩ := p
    rw [hy] at h
    dsimp only at h
    injection h with h1 h2
    subst h1
    subst h2
    obtain ⟨ha, hst⟩ := youngAllocRaw_ok_inv hy
    subst ha
    subst hst
    refine ⟨.Young, rfl, ?_⟩
    exact lookupA_push_self (lookupObj_fresh hwf)
  | error e =>
    rw [hy] at h
    cases e with
    | OutOfMemory => cases h
    | SizeExceedsLimit =>
      dsimp only at h
      unfold alloc_raw_fallback at h
      cases ho : oldAllocRaw st t with
      | none => rw [ho] at h; cases h
      | some p =>
        obtain ⟨a', st'⟩ := p
        rw [ho] at h
        dsimp only at h
        injection h with h1 h2
        subst h1
        subst h2
        obtain ⟨-, ha, hst⟩ := oldAllocRaw_ok_inv ho
        subst ha
        subst hst
        refine ⟨.Old, rfl, ?_⟩
        exact lookupA_push_self (lookupObj_fresh hwf)

/-!
## Demo world used by the witnesses
-/

/-- A small type-info table: index 0 is a plain one-cell value with
neither trace nor drop function; index 1 is a single managed pointer
(trace cell at offset 0); index 2 is a plain value with a drop
function. -/
def demoTis : List GcTypeInfo :=
  [ { valueCells := 1, valueSize := 8, traceCells := none, hasDropFunc := false },
    { valueCells := 1, valueSize := 8, traceCells := some [0], hasDropFunc := false },
    { valueCells := 1, valueSize := 8, traceCells := none, hasDropFunc := true } ]

/-- The empty collector state with id 7. -/
def demoEmpty : GcState :=
  { typeInfos := demoTis, heap := [], nextAddr := 100, destructionQueue := []
    mark_bits_inverted := false, youngBytes := 0, oldBytes := 0, oldOom := false
    roots := [], lastCollectSize := none, collectorId := 7, events := [] }

/-- A young, white, initialized header with the given type info and
payload, owned by collector 7. -/
def demoObj (ti : Nat) (arr : Bool) (len : Nat) (pl : List Nat) : GcObject :=
  { header :=
      { collector_id := 7
        state_bits :=
          { forwarded := false, array := arr, generation := .Young
            raw_mark_bits := false, value_initialized := true }
        metadata := .typeInfo ti
        alloc_info := { nontrivial_drop_index := u32Max }
        len_elements := len }
    payload := pl }

/-!
## Claim theorems
-/

/-- C1: the spec claims `INITIAL_COLLECT_THRESHOLD = (12 KiB, 12 KiB)`
(12288 bytes in each generation).  The code agrees in the young
dimension only: the old dimension reads `12 * 1204` (a digit
transposition of `12 * 1024`), i.e. 14448 bytes, so the initial
threshold is not 12 KiB in each generation.  The spec's design notes
flag this very constant as a probable typo, making this a code bug
rather than a spec error. -/
theorem C1_initial_threshold_constant :
    GenerationSizes.INITIAL_COLLECT_THRESHOLD.young_generation_size = 12 * 1024 ∧
    GenerationSizes.INITIAL_COLLECT_THRESHOLD.old_generation_size = 12 * 1204 ∧
    GenerationSizes.INITIAL_COLLECT_THRESHOLD.old_generation_size = 14448 ∧
    GenerationSizes.INITIAL_COLLECT_THRESHOLD.old_generation_size ≠ 12288 ∧
    (∀ st : GcState, st.lastCollectSize = none →
      threshold_size st = GenerationSizes.INITIAL_COLLECT_THRESHOLD) := by
  refine ⟨rfl, rfl, rfl, by decide, ?_⟩
  intro st h
  unfold threshold_size
  rw [h]

/-- C1 witness: before any cycle the empty collector's threshold is
the (asymmetric) initial constant. -/
theorem C1_witness :
    demoEmpty.lastCollectSize = none ∧
    threshold_size demoEmpty = GenerationSizes.INITIAL_COLLECT_THRESHOLD :=
  ⟨rfl, (C1_initial_threshold_constant.2.2.2.2) demoEmpty rfl⟩

/-- C10: `alloc` is literally `alloc_with` applied to the closure
returning the value; both paths share the allocation routing, the
initialization guard and the `value_initialized` protocol by
definition. -/
theorem C10_alloc_eq_alloc_with (st : GcState) (t : AllocTarget) (value : List Nat) :
    alloc st t value = alloc_with st t (fun _ => some value) := rfl

/-- C5: `collect` runs a cycle exactly when the current size meets the
threshold in at least one generation (the comparison is `≥`, per
dimension), and a completed cycle records the observed sizes so that
the next threshold is exactly the doubled pair. -/
theorem C5_trigger_and_doubling (fuel : Nat) (st : GcState) :
    (needs_collection st = true ↔
      (threshold_size st).young_generation_size ≤ (current_size st).young_generation_size ∨
      (threshold_size st).old_generation_size ≤ (current_size st).old_generation_size) ∧
    (needs_collection st = true → collect fuel st = force_collect fuel st) ∧
    (needs_collection st = false → collect fuel st = .ok st) ∧
    (∀ st', force_collect fuel st = .ok st' →
      ∃ s, st'.lastCollectSize = some s ∧ s = current_size st' ∧
        threshold_size st' =
          { young_generation_size := s.young_generation_size * 2
            old_generation_size := s.old_generation_size * 2 }) := by
  refine ⟨?_, ?_, ?_, ?_⟩
  · unfold needs_collection GenerationSizes.meets_either_threshold
    simp
  · intro h
    unfold collect
    rw [if_pos h]
  · intro h
    unfold collect
    rw [if_neg (by simp [h])]
  · intro st' hok
    unfold force_collect at hok
    dsimp only at hok
    split at hok
    · cases hok
    · cases hok
    · next entries st1 heq =>
      injection hok with hok
      subst hok
      exact ⟨_, rfl, rfl, rfl⟩

/-- C5 witness: on the empty collector the trigger comparison holds
(0 bytes vs the initial threshold is below it in both generations, so
no cycle runs), and a forced cycle records sizes and doubles them. -/
theorem C5_witness :
    (needs_collection demoEmpty = false ∧ collect 1 demoEmpty = .ok demoEmpty) ∧
    (∀ st', force_collect 1 demoEmpty = .ok st' →
      ∃ s, st'.lastCollectSize = some s ∧ s = current_size st' ∧
        threshold_size st' =
          { young_generation_size := s.young_generation_size * 2
            old_generation_size := s.old_generation_size * 2 }) :=
  ⟨⟨by decide, (C5_trigger_and_doubling 1 demoEmpty).2.2.1 (by decide)⟩,
    (C5_trigger_and_doubling 1 demoEmpty).2.2.2⟩

/-- C8: every allocation tries the young generation first;
`SizeExceedsLimit` is recoverable and routes to the old-generation
fallback; `OutOfMemory` from the young space, or failure of the old
fallback, is fatal (no value is returned; `oom` panics).  A successful
young attempt really lands in the young generation. -/
theorem C8_alloc_raw_routing (st : GcState) (t : AllocTarget) :
    (∀ a st', youngAllocRaw st t = .ok (a, st') → alloc_raw st t = .ok a st') ∧
    (youngAllocRaw st t = .error .SizeExceedsLimit →
      alloc_raw st t = alloc_raw_fallback st t ∧
      (∀ a st', oldAllocRaw st t = some (a, st') → alloc_raw st t = .ok a st') ∧
      (oldAllocRaw st t = none →
        alloc_raw st t = .fatalOom "Fatal allocation error: OutOfMemory")) ∧
    (youngAllocRaw st t = .error .OutOfMemory →
      alloc_raw st t = .fatalOom "Fatal allocation error: OutOfMemory") ∧
    (WFheap st → ∀ a st', youngAllocRaw st t = .ok (a, st') →
      ∃ o, st'.lookupObj a = some o ∧ o.header.state_bits.generation = .Young) ∧
    (YOUNG_MAX_OBJECT_BYTES < t.overallBytes (st.getTi t.tiIdx) →
      youngAllocRaw st t = .error .SizeExceedsLimit) := by
  refine ⟨?_, ?_, ?_, ?_, ?_⟩
  · intro a st' hy
    unfold alloc_raw
    rw [hy]
  · intro hy
    refine ⟨by unfold alloc_raw; rw [hy], ?_, ?_⟩
    · intro a st' ho
      unfold alloc_raw
      rw [hy]
      dsimp only
      unfold alloc_raw_fallback
      rw [ho]
    · intro ho
      unfold alloc_raw
      rw [hy]
      dsimp only
      unfold alloc_raw_fallback
      rw [ho]
  · intro hy
    unfold alloc_raw
    rw [hy]
  · intro hwf a st' hy
    obtain ⟨ha, hst⟩ := youngAllocRaw_ok_inv hy
    subst ha
    subst hst
    exact ⟨_, lookupA_push_self (lookupObj_fresh hwf), rfl⟩
  · intro hsz
    unfold youngAllocRaw
    dsimp only
    rw [if_pos hsz]

/-- A small plain allocation target (24 bytes overall). -/
def smallTarget : AllocTarget := { isArray := false, tiIdx := 0, lenElements := 0 }

/-- An array target far above the young size cap. -/
def bigTarget : AllocTarget := { isArray := true, tiIdx := 0, lenElements := 2 * 1024 * 1024 }

/-- A collector whose young region is exhausted. -/
def demoFull : GcState := { demoEmpty with youngBytes := YOUNG_REGION_BYTES }

/-- A collector whose old space reports out of memory. -/
def demoOldOom : GcState := { demoEmpty with oldOom := true }

/-- C8 witness: the oversized allocation is rerouted to the old
generation; a young out-of-memory is fatal; the failing old fallback
is fatal. -/
theorem C8_witness :
    (youngAllocRaw demoEmpty bigTarget = .error .SizeExceedsLimit ∧
      alloc_raw demoEmpty bigTarget = alloc_raw_fallback demoEmpty bigTarget) ∧
    (youngAllocRaw demoFull smallTarget = .error .OutOfMemory ∧
      alloc_raw demoFull smallTarget = .fatalOom "Fatal allocation error: OutOfMemory") ∧
    (oldAllocRaw demoOldOom bigTarget = none ∧
      alloc_raw demoOldOom bigTarget = .fatalOom "Fatal allocation error: OutOfMemory") :=
  ⟨⟨rfl, ((C8_alloc_raw_routing demoEmpty bigTarget).2.1 rfl).1⟩,
    ⟨rfl, (C8_alloc_raw_routing demoFull smallTarget).2.2.1 rfl⟩,
    ⟨rfl, ((C8_alloc_raw_routing demoOldOom bigTarget).2.1 rfl).2.2 rfl⟩⟩

/-- C7: the initialization guard.  After a successful raw allocation
the header is uninitialized; if the initializer exits non-locally the
guard fires while `value_initialized` is still false — in the young
generation it does nothing (the header is left for the next sweep),
in the old generation it frees the allocation immediately; on a
successful initialization the guard is defused and the header ends
with `value_initialized = true`. -/
theorem C7_init_guard {st : GcState} {t : AllocTarget} {a : Nat} {st1 : GcState}
    (hwf : WFheap st) (halloc : alloc_raw st t = .ok a st1) :
    (∃ o, st1.lookupObj a = some o ∧ o.header.state_bits.value_initialized = false) ∧
    (∀ o, st1.lookupObj a = some o → o.header.state_bits.generation = .Young →
      alloc_with st t (fun _ => none) = .initPanic st1) ∧
    (∀ o, st1.lookupObj a = some o → o.header.state_bits.generation = .Old →
      alloc_with st t (fun _ => none) = .initPanic (destroy_uninit_object st1 a) ∧
      (destroy_uninit_object st1 a).lookupObj a = none) ∧
    (∀ v, ∃ st2, alloc_with st t (fun _ => some v) = .ok a st2 ∧
      ∃ o2, st2.lookupObj a = some o2 ∧ o2.header.state_bits.value_initialized = true) := by
  obtain ⟨gen, ha, hlook⟩ := alloc_raw_ok_spec hwf halloc
  refine ⟨⟨_, hlook, rfl⟩, ?_, ?_, ?_⟩
  · intro o hlo hgen
    rw [hlook] at hlo
    injection hlo with hlo
    subst hlo
    have hg : gen = GenerationId.Young := hgen
    subst hg
    unfold alloc_with
    rw [halloc]
    dsimp only
    unfold destroyUninitGuardDrop
    rw [hlook]
    rfl
  · intro o hlo hgen
    rw [hlook] at hlo
    injection hlo with hlo
    subst hlo
    have hg : gen = GenerationId.Old := hgen
    subst hg
    refine ⟨?_, destroy_uninit_lookup_self st1 a⟩
    unfold alloc_with
    rw [halloc]
    dsimp only
    unfold destroyUninitGuardDrop
    rw [hlook]
    rfl
  · intro v
    refine ⟨(st1.setPayload a v).updateStateBits a
      (fun b => { b with value_initialized := true }), ?_, ?_⟩
    · unfold alloc_with
      rw [halloc]
    · exact ⟨_, lookupObj_updateStateBits_self (lookupObj_setPayload_self hlook), rfl⟩

theorem WF_demoEmpty : WFheap demoEmpty := by
  intro p hp
  simp [demoEmpty] at hp

/-- The state after a small plain allocation into the empty
collector. -/
def demoAllocSt : GcState :=
  match alloc_raw demoEmpty smallTarget with
  | .ok _ s => s
  | _ => demoEmpty

theorem demoAlloc_eq : alloc_raw demoEmpty smallTarget = .ok 100 demoAllocSt := rfl

/-- C7 witness: a concrete successful initialization and a concrete
guarded panic in the young generation (the state is untouched). -/
theorem C7_witness :
    (∃ st2, alloc_with demoEmpty smallTarget (fun _ => some [42]) = .ok 100 st2 ∧
      ∃ o2, st2.lookupObj 100 = some o2 ∧ o2.header.state_bits.value_initialized = true) ∧
    (∃ stp, alloc_with demoEmpty smallTarget (fun _ => none) = .initPanic stp) :=
  ⟨(C7_init_guard WF_demoEmpty demoAlloc_eq).2.2.2 [42],
    ⟨_, (C7_init_guard WF_demoEmpty demoAlloc_eq).2.1 _ rfl rfl⟩⟩

/-- C3: the dispatch of `collect_gcheader`: a collector-id mismatch is
fatal; a forwarded header returns its forward pointer with the state
untouched; a `Black` header (under the current polarity) returns
itself with the state untouched; a `White` header enters the cold
path `fallback_collect_gc_header`.  So a settled (forwarded or black)
header is never visited again within a cycle. -/
theorem C3_collect_gcheader_dispatch (fuel : Nat) (st : GcState) (addr : Nat)
    (obj : GcObject) (hl : st.lookupObj addr = some obj) :
    (obj.header.collector_id ≠ st.collectorId →
      collect_gcheader fuel st addr = .fatal "Mismatched collector ids") ∧
    (obj.header.collector_id = st.collectorId → obj.header.state_bits.forwarded = true →
      ∀ p, obj.header.metadata = .forwardPtr p →
        collect_gcheader fuel st addr = .ok p st) ∧
    (obj.header.collector_id = st.collectorId → obj.header.state_bits.forwarded = false →
      GcMarkBits.resolveRaw st.mark_bits_inverted obj.header.state_bits.raw_mark_bits
        = GcMarkBits.Black →
      collect_gcheader fuel st addr = .ok addr st) ∧
    (obj.header.collector_id = st.collectorId → obj.header.state_bits.forwarded = false →
      GcMarkBits.resolveRaw st.mark_bits_inverted obj.header.state_bits.raw_mark_bits
        = GcMarkBits.White →
      collect_gcheader fuel st addr = fallback_collect_gc_header fuel st addr) := by
  refine ⟨?_, ?_, ?_, ?_⟩
  · intro hid
    unfold collect_gcheader collectG
    rw [hl]
    dsimp only
    rw [if_neg hid]
  · intro hid hfw p hm
    unfold collect_gcheader collectG
    rw [hl]
    dsimp only
    rw [if_pos hid, hfw, if_pos rfl, hm]
  · intro hid hfw hmk
    unfold collect_gcheader collectG
    rw [hl]
    dsimp only
    rw [if_pos hid, hfw, if_neg (by simp), hmk]
  · intro hid hfw hmk
    unfold collect_gcheader collectG
    rw [hl]
    dsimp only
    rw [if_pos hid, hfw, if_neg (by simp), hmk]
    rfl

/-- A single black young object (raw mark set under non-inverted
polarity). -/
def demoBlackObj : GcObject :=
  { demoObj 0 false 0 [5] with header :=
      { (demoObj 0 false 0 [5]).header with state_bits :=
        { (demoObj 0 false 0 [5]).header.state_bits with raw_mark_bits := true } } }

/-- A heap with that single black young object, rooted nowhere. -/
def demoBlackSt : GcState :=
  { demoEmpty with heap := [(100, demoBlackObj)], nextAddr := 101 }

/-- C3 witness: a black header is returned unchanged. -/
theorem C3_witness :
    demoBlackSt.lookupObj 100 = some demoBlackObj ∧
    collect_gcheader 1 demoBlackSt 100 = .ok 100 demoBlackSt :=
  ⟨by decide,
    (C3_collect_gcheader_dispatch 1 demoBlackSt 100 demoBlackObj (by decide)).2.2.1
      rfl rfl (by decide)⟩

theorem not_mem_filter_of_not_mem {l : List Nat} {a : Nat} {p : Nat → Bool}
    (h : a ∉ l) : a ∉ l.filter p := fun hm => h (List.mem_filter.mp hm).1

/-- C2: promoting a white young header.  The old-space copy ends with
`generation = Old`, `value_initialized = true`, `forwarded = false`
and a `Black` mark; the original ends forwarded with its metadata the
forward pointer to the (fresh, hence old-space) copy, still `Young`
and `Black` — lifecycle invariant 2; and the original leaves the
young destruction queue exactly when its type has a drop function
(assuming the queue invariant of spec 4.3 and the drop-index cache
consistency that the code `debug_assert!`s), so a promoted object is
never dropped by the young sweep. -/
theorem C2_promotion_postconditions (fuel : Nat) {st : GcState} {addr tiIdx : Nat}
    {obj : GcObject} {r : Nat} {st' : GcState}
    (hwf : WFheap st) (hl : st.lookupObj addr = some obj)
    (hf : obj.header.state_bits.forwarded = false)
    (hw : GcMarkBits.resolveRaw st.mark_bits_inverted obj.header.state_bits.raw_mark_bits
      = GcMarkBits.White)
    (hg : obj.header.state_bits.generation = .Young)
    (hm : obj.header.metadata = .typeInfo tiIdx)
    (hqueueWF : addr ∈ st.destructionQueue ↔
      obj.header.alloc_info.nontrivial_drop_index < u32Max)
    (hcache : (obj.header.alloc_info.nontrivial_drop_index < u32Max) ↔
      (st.getTi tiIdx).hasDropFunc = true)
    (hok : fallback_collect_gc_header fuel st addr = .ok r st') :
    r = st.nextAddr ∧
    st.lookupObj st.nextAddr = none ∧
    (∃ oc, st'.lookupObj r = some oc ∧
      oc.header.state_bits.generation = .Old ∧
      oc.header.state_bits.value_initialized = true ∧
      oc.header.state_bits.forwarded = false ∧
      GcMarkBits.resolveRaw st'.mark_bits_inverted oc.header.state_bits.raw_mark_bits
        = GcMarkBits.Black) ∧
    (∃ oh, st'.lookupObj addr = some oh ∧
      oh.header.state_bits.forwarded = true ∧
      oh.header.state_bits.generation = .Young ∧
      GcMarkBits.resolveRaw st'.mark_bits_inverted oh.header.state_bits.raw_mark_bits
        = GcMarkBits.Black ∧
      oh.header.metadata = .forwardPtr r) ∧
    ((st.getTi tiIdx).hasDropFunc = true → addr ∈ st.destructionQueue) ∧
    addr ∉ st'.destructionQueue ∧
    addr ∉ youngSweepDrops st' := by
  unfold fallback_collect_gc_header at hok
  by_cases hoom : st.oldOom = false
  · revert hok
    refine fallbackG_young_run hwf hl hm hg hoom (fun res => res = .ok r st' → _) ?_
    intro stMid hmf hok2
    obtain ⟨hr, hp2⟩ := traceValueG_pres (tcFuel_spec fuel) hmf.wf hok2
    subst hr
    have hane : addr ≠ st.nextAddr := by
      have := hwf _ (lookupA_some_mem hl)
      omega
    have hbcopy : GcMarkBits.resolveRaw stMid.mark_bits_inverted
        (GcMarkBits.Black.toRaw st.mark_bits_inverted) = GcMarkBits.Black := by
      rw [hmf.inv]
      exact resolveRaw_toRaw st.mark_bits_inverted GcMarkBits.Black
    refine ⟨rfl, lookupObj_fresh hwf, ?_, ?_, ?_, ?_, ?_⟩
    · obtain ⟨oc, hlc, hhc, -⟩ := hp2.black_keep st.nextAddr _ hmf.copy hf hbcopy
      refine ⟨oc, hlc, ?_, ?_, ?_, ?_⟩
      · rw [hhc]
      · rw [hhc]
      · rw [hhc]
        exact hf
      · rw [hhc, hp2.inv, hmf.inv]
        exact resolveRaw_toRaw st.mark_bits_inverted GcMarkBits.Black
    · obtain ⟨oh, hlo, hho, -⟩ := hp2.fwd_keep addr _ hmf.orig rfl
      refine ⟨oh, hlo, ?_, ?_, ?_, ?_⟩
      · rw [hho]
      · rw [hho]
        exact hg
      · rw [hho, hp2.inv, hmf.inv]
        exact resolveRaw_toRaw st.mark_bits_inverted GcMarkBits.Black
      · rw [hho]
    · intro hdrop
      exact hqueueWF.mpr (hcache.mpr hdrop)
    · intro hmem
      have hmid := hp2.queue_sub addr hmem
      rw [hmf.queue] at hmid
      by_cases hd : obj.header.alloc_info.nontrivial_drop_index < u32Max
      · rw [if_pos hd] at hmid
        have := (List.mem_filter.mp hmid).2
        simp at this
      · rw [if_neg hd] at hmid
        exact hd (hqueueWF.mp hmid)
    · intro hmem
      have h1 : addr ∈ st'.destructionQueue := by
        have := (List.mem_filter.mp hmem).1
        exact this
      have hmid := hp2.queue_sub addr h1
      rw [hmf.queue] at hmid
      by_cases hd : obj.header.alloc_info.nontrivial_drop_index < u32Max
      · rw [if_pos hd] at hmid
        have := (List.mem_filter.mp hmid).2
        simp at this
      · rw [if_neg hd] at hmid
        exact hd (hqueueWF.mp hmid)
  · have ho : st.oldOom = true := by
      cases hb : st.oldOom
      · exact absurd hb hoom
      · rfl
    rw [fallbackG_young_oom hl hm hg ho] at hok
    cases hok

/-- A young white object whose type (index 2) has a drop function;
its cached drop index is 0 and it sits on the destruction queue. -/
def demoDropObj : GcObject :=
  { demoObj 2 false 0 [7] with header :=
      { (demoObj 2 false 0 [7]).header with alloc_info := { nontrivial_drop_index := 0 } } }

def demoDropSt : GcState :=
  { demoEmpty with heap := [(100, demoDropObj)], destructionQueue := [100], nextAddr := 101 }

theorem WF_demoDropSt : WFheap demoDropSt := by
  intro p hp
  simp only [demoDropSt, demoEmpty, List.mem_singleton] at hp
  subst hp
  decide

/-- The state after promoting the droppable object. -/
def demoPromSt : GcState :=
  match fallback_collect_gc_header 1 demoDropSt 100 with
  | .ok _ s => s
  | _ => demoEmpty

theorem demoProm_eq : fallback_collect_gc_header 1 demoDropSt 100 = .ok 101 demoPromSt := rfl

/-- C2 witness: the droppable young object is promoted to the fresh
old address 101; it is forwarded there and leaves the destruction
queue. -/
theorem C2_witness :
    (100 ∈ demoDropSt.destructionQueue ↔
      demoDropObj.header.alloc_info.nontrivial_drop_index < u32Max) ∧
    (∃ oh, demoPromSt.lookupObj 100 = some oh ∧
      oh.header.state_bits.forwarded = true ∧
      oh.header.state_bits.generation = .Young ∧
      GcMarkBits.resolveRaw demoPromSt.mark_bits_inverted oh.header.state_bits.raw_mark_bits
        = GcMarkBits.Black ∧
      oh.header.metadata = .forwardPtr 101) ∧
    100 ∉ demoPromSt.destructionQueue :=
  ⟨by decide,
    (C2_promotion_postconditions 1 WF_demoDropSt
      (show demoDropSt.lookupObj 100 = some demoDropObj from rfl)
      (by decide) (by decide) (by decide)
      (show demoDropObj.header.metadata = .typeInfo 2 from rfl)
      (by decide) (by decide) demoProm_eq).2.2.2.1,
    (C2_promotion_postconditions 1 WF_demoDropSt
      (show demoDropSt.lookupObj 100 = some demoDropObj from rfl)
      (by decide) (by decide) (by decide)
      (show demoDropObj.header.metadata = .typeInfo 2 from rfl)
      (by decide) (by decide) demoProm_eq).2.2.2.2.2.1⟩

/-- Dead root entries (weak upgrade failed) are skipped by the retain
loop without touching the state. -/
theorem markRootsAux_skip_dead (fuel : Nat) (st : GcState)
    (pre l : List RootEntry) (h : ∀ e ∈ pre, e.alive = false) :
    markRootsAux fuel st (pre ++ l) = markRootsAux fuel st l := by
  induction pre with
  | nil => rfl
  | cons e pre ih =>
    have he : e.alive = false := h e (List.mem_cons_self e pre)
    have step : markRootsAux fuel st (e :: (pre ++ l)) = markRootsAux fuel st (pre ++ l) := by
      conv_lhs => unfold markRootsAux
      rw [he, if_neg Bool.false_ne_true]
    show markRootsAux fuel st (e :: (pre ++ l)) = _
    rw [step]
    exact ih (fun e' he' => h e' (List.mem_cons_of_mem _ he'))

/-- When the root-marking retain loop hits a fatal trace failure, the
armed `AbortFailureGuard` escalates it: `force_collect` aborts. -/
theorem force_collect_abort_of_fatal (fuel : Nat) (st : GcState) (m : String)
    (h : markRootsAux fuel (st.logEvent .armGuard) (st.logEvent .armGuard).roots = .fatal m) :
    force_collect fuel st = .abort "GC failure to trace is fatal" := by
  simp only [force_collect, h]

/-- C9: tracing a header whose `collector_id` differs from the current
collector's id is fatal: `collect_gcheader` returns the fatal
id-mismatch outcome without touching the state, and when such a header
is reached from the root table during `force_collect` — where the
abort-on-failure guard is armed for the whole marking phase and only
defused after it — the failure escalates to a process abort. -/
theorem C9_identity_mismatch_abort (fuel : Nat) (st : GcState) (addr : Nat)
    (obj : GcObject) (hl : st.lookupObj addr = some obj)
    (hid : obj.header.collector_id ≠ st.collectorId) :
    collect_gcheader fuel st addr = .fatal "Mismatched collector ids" ∧
    ∀ pre rest, st.roots = pre ++ ({ alive := true, header := addr } : RootEntry) :: rest →
      (∀ e ∈ pre, e.alive = false) →
      force_collect fuel st = .abort "GC failure to trace is fatal" := by
  have hfat : ∀ s : GcState, s.lookupObj addr = some obj → s.collectorId = st.collectorId →
      collect_gcheader fuel s addr = .fatal "Mismatched collector ids" := by
    intro s hs hc
    unfold collect_gcheader collectG
    rw [hs]
    dsimp only
    rw [if_neg (by rw [hc]; exact hid)]
  refine ⟨hfat st hl rfl, ?_⟩
  intro pre rest hroots hdead
  refine force_collect_abort_of_fatal fuel st "Mismatched collector ids" ?_
  have hr0 : (st.logEvent .armGuard).roots
      = pre ++ ({ alive := true, header := addr } : RootEntry) :: rest := hroots
  rw [hr0, markRootsAux_skip_dead fuel _ pre _ hdead]
  unfold markRootsAux
  dsimp only
  rw [hfat (st.logEvent .armGuard) (by rw [lookupObj_logEvent]; exact hl) rfl]
  rfl

/-- A header owned by a foreign collector (id 3 ≠ 7). -/
def demoBadObj : GcObject :=
  { demoObj 0 false 0 [0] with
    header := { (demoObj 0 false 0 [0]).header with collector_id := 3 } }

/-- `demoEmpty` with the foreign header at 50, reachable from the root
table behind one dead entry. -/
def demoBadSt : GcState :=
  { demoEmpty with
    heap := [(50, demoBadObj)]
    roots := [{ alive := false, header := 99 }, { alive := true, header := 50 }] }

/-- Witness for C9 at the concrete state `demoBadSt`. -/
theorem C9_witness :
    collect_gcheader 1 demoBadSt 50 = .fatal "Mismatched collector ids" ∧
    force_collect 1 demoBadSt = .abort "GC failure to trace is fatal" := by
  have h := C9_identity_mismatch_abort 1 demoBadSt 50 demoBadObj rfl (by decide)
  exact ⟨h.1, h.2 [{ alive := false, header := 99 }] [] rfl (by decide)⟩


/-- Folding drop-event logging over a list of addresses only prepends
the (reversed) drop events. -/
theorem foldl_dropNat : ∀ (l : List Nat) (s : GcState),
    l.foldl (fun t a => t.logEvent (.dropObject a)) s
      = { s with events := l.reverse.map GcEvent.dropObject ++ s.events }
  | [], s => by simp
  | a :: l, s => by
    rw [List.foldl_cons, foldl_dropNat l (s.logEvent (.dropObject a))]
    simp [GcState.logEvent]

/-- The pair-indexed variant, for the old sweep. -/
theorem foldl_dropPair : ∀ (l : List (Nat × GcObject)) (s : GcState),
    l.foldl (fun t p => t.logEvent (.dropObject p.1)) s
      = { s with events := l.reverse.map (fun p => GcEvent.dropObject p.1) ++ s.events }
  | [], s => by simp
  | a :: l, s => by
    rw [List.foldl_cons, foldl_dropPair l (s.logEvent (.dropObject a.1))]
    simp [GcState.logEvent]

/-- `youngSweep` as a single record update: log the sweep and the drop
events, keep only old-generation objects, clear the queue and the bump
region. -/
theorem youngSweep_eq (s : GcState) :
    youngSweep s = { s with
      events := (youngSweepDrops s).reverse.map GcEvent.dropObject
        ++ GcEvent.sweepYoung :: s.events
      heap := s.heap.filter (fun p => p.2.header.state_bits.generation = GenerationId.Old)
      destructionQueue := []
      youngBytes := 0 } := by
  unfold youngSweep
  dsimp only
  rw [foldl_dropNat]
  rfl

/-- The white old objects the old sweep frees. -/
def oldDropped (s : GcState) : List (Nat × GcObject) :=
  s.heap.filter (fun p => decide (p.2.header.state_bits.generation = GenerationId.Old ∧
    GcMarkBits.resolveRaw s.mark_bits_inverted p.2.header.state_bits.raw_mark_bits
      = GcMarkBits.White))

/-- `oldSweep` as a single record update: log the sweep and the drop
events, free the white old objects, subtract their bytes. -/
theorem oldSweep_eq (s : GcState) :
    oldSweep s =
      { s with
        events := ((oldDropped s).reverse.map (fun p => GcEvent.dropObject p.1))
          ++ GcEvent.sweepOld :: s.events
        heap := s.heap.filter (fun p => !decide
          (p.2.header.state_bits.generation = GenerationId.Old ∧
            GcMarkBits.resolveRaw s.mark_bits_inverted p.2.header.state_bits.raw_mark_bits
              = GcMarkBits.White))
        oldBytes := s.oldBytes - ((oldDropped s).map (fun p => s.objBytes p.2)).sum } := by
  unfold oldSweep
  dsimp only
  rw [foldl_dropPair]
  rfl

/-- A surviving root slot: the entry was alive and its header cell was
replaced by the result of tracing the old header (in the marking-phase
state the loop had reached). -/
def rootTraced (fuel : Nat) (e e2 : RootEntry) : Prop :=
  e.alive = true ∧ e2.alive = true ∧
    ∃ sa sb, collect_gcheader fuel sa e.header = .ok e2.header sb

/-- On success the retain loop keeps exactly the alive entries, in
order, each with its header updated to the tracing result. -/
theorem markRootsAux_ok_spec (fuel : Nat) (l : List RootEntry) :
    ∀ (s : GcState) (es : List RootEntry) (s2 : GcState),
      markRootsAux fuel s l = .ok es s2 →
      List.Forall₂ (rootTraced fuel) (l.filter (fun e => e.alive)) es := by
  induction l with
  | nil =>
    intro s es s2 h
    unfold markRootsAux at h
    cases h
    exact List.Forall₂.nil
  | cons e rest ih =>
    intro s es s2 h
    unfold markRootsAux at h
    by_cases he : e.alive = true
    · rw [if_pos he] at h
      have hcons : (e :: rest).filter (fun e => e.alive)
          = e :: rest.filter (fun e => e.alive) := by
        simp [List.filter_cons, he]
      cases hc : collect_gcheader fuel s e.header with
      | ok r sm =>
        rw [hc] at h
        dsimp only at h
        cases hm2 : markRootsAux fuel sm rest with
        | ok es2 s3 =>
          rw [hm2] at h
          dsimp only at h
          cases h
          rw [hcons]
          exact List.Forall₂.cons ⟨he, rfl, s, sm, hc⟩ (ih sm es2 _ hm2)
        | fatal m => rw [hm2] at h; cases h
        | outOfFuel => rw [hm2] at h; cases h
      | fatal m => rw [hc] at h; cases h
      | outOfFuel => rw [hc] at h; cases h
    · rw [if_neg he] at h
      have hcons : (e :: rest).filter (fun e => e.alive)
          = rest.filter (fun e => e.alive) := by
        simp [List.filter_cons, he]
      rw [hcons]
      exact ih s es s2 h

/-- On success the retain loop is one long marking-phase step:
`Pres none` composes over the traced entries. -/
theorem markRootsAux_pres (fuel : Nat) (l : List RootEntry) :
    ∀ (s : GcState) (es : List RootEntry) (s2 : GcState),
      WFheap s → markRootsAux fuel s l = .ok es s2 → Pres none s s2 := by
  induction l with
  | nil =>
    intro s es s2 _ h
    unfold markRootsAux at h
    cases h
    exact Pres.rfl none s
  | cons e rest ih =>
    intro s es s2 hwf h
    unfold markRootsAux at h
    by_cases he : e.alive = true
    · rw [if_pos he] at h
      cases hc : collect_gcheader fuel s e.header with
      | ok r sm =>
        rw [hc] at h
        dsimp only at h
        cases hm2 : markRootsAux fuel sm rest with
        | ok es2 s3 =>
          rw [hm2] at h
          dsimp only at h
          cases h
          have hp1 := (collect_gcheader_spec fuel s e.header r sm hwf hc).1
          exact hp1.trans (ih sm es2 _ (hp1.wf hwf) hm2)
        | fatal m => rw [hm2] at h; cases h
        | outOfFuel => rw [hm2] at h; cases h
      | fatal m => rw [hc] at h; cases h
      | outOfFuel => rw [hc] at h; cases h
    · rw [if_neg he] at h
      exact ih s es s2 hwf h

/-- The C6 cycle structure: the retain loop ran first (removing dead
entries and updating each surviving slot from the tracing result, per
`rootTraced`), the polarity flipped, the just-observed sizes were
recorded, and the event log shows — in strict chronological order,
reading right to left — guard arming, the mark-phase trace events, the
guard defusing, the young sweep with its drops, the old sweep with its
drops, the polarity flip, and the size recording. -/
def forceCollectOrdered (fuel : Nat) (st st2 : GcState) : Prop :=
  ∃ (entries : List RootEntry) (st1 : GcState) (markEvents : List GcEvent)
    (youngDrops oldDrops : List Nat),
    markRootsAux fuel (st.logEvent .armGuard) st.roots = .ok entries st1 ∧
    List.Forall₂ (rootTraced fuel) (st.roots.filter (fun e => e.alive)) entries ∧
    st2.roots = entries ∧
    (∀ e ∈ markEvents, e.isTraceEvent = true) ∧
    st1.events = markEvents ++ GcEvent.armGuard :: st.events ∧
    st2.mark_bits_inverted = !st.mark_bits_inverted ∧
    st2.lastCollectSize = some (current_size st2) ∧
    st2.destructionQueue = [] ∧
    st2.youngBytes = 0 ∧
    st2.events =
      GcEvent.recordSize st2.youngBytes st2.oldBytes :: GcEvent.flipPolarity ::
        (oldDrops.map GcEvent.dropObject ++ GcEvent.sweepOld ::
          (youngDrops.map GcEvent.dropObject ++ GcEvent.sweepYoung ::
            GcEvent.defuseGuard :: st1.events))

/-- C6: every successful `force_collect` performs, in strict order:
root marking (dead entries removed, surviving slots updated from the
tracing result), young sweep, old sweep, mark-polarity inversion, and
recording of the current sizes as `last_collect_size`. -/
theorem C6_force_collect_order (fuel : Nat) (st st2 : GcState)
    (hwf : WFheap st) (hok : force_collect fuel st = .ok st2) :
    forceCollectOrdered fuel st st2 := by
  unfold forceCollectOrdered
  simp only [force_collect] at hok
  cases hm : markRootsAux fuel (st.logEvent .armGuard) (st.logEvent .armGuard).roots with
  | fatal m => rw [hm] at hok; cases hok
  | outOfFuel => rw [hm] at hok; cases hok
  | ok entries st1 =>
    rw [hm] at hok
    dsimp only at hok
    have hpres := markRootsAux_pres fuel ((st.logEvent .armGuard).roots)
      (st.logEvent .armGuard) entries st1 (WF_logEvent hwf) hm
    obtain ⟨markEvents, hev, htr⟩ := hpres.ev_mono
    have hfa := markRootsAux_ok_spec fuel ((st.logEvent .armGuard).roots)
      (st.logEvent .armGuard) entries st1 hm
    injection hok with hbig
    subst hbig
    rw [youngSweep_eq, oldSweep_eq]
    refine ⟨entries, st1, markEvents,
      (youngSweepDrops (({ st1 with roots := entries } : GcState).logEvent .defuseGuard)).reverse,
      (oldDropped (youngSweep
        (({ st1 with roots := entries } : GcState).logEvent .defuseGuard))).reverse.map
        (fun p => p.1),
      hm, hfa, rfl, htr, hev, ?_, rfl, rfl, rfl, ?_⟩
    · show (!st1.mark_bits_inverted) = !st.mark_bits_inverted
      rw [hpres.inv]
      rfl
    · simp only [List.map_map, youngSweep_eq]
      rfl

/-- `demoBlackSt` with a dead root and a live root to the black header. -/
def demoRootSt : GcState :=
  { demoBlackSt with
    roots := [{ alive := false, header := 55 }, { alive := true, header := 100 }] }

theorem WF_demoRootSt : WFheap demoRootSt := by
  intro p hp
  simp only [demoRootSt, demoBlackSt, demoEmpty, List.mem_singleton] at hp
  subst hp
  decide

/-- The state a cycle over `demoRootSt` ends in: dead root removed,
live root retained, the (unreachable from nothing, but black) young
object swept away with the whole young region, polarity inverted,
sizes recorded. -/
def demoFCSt : GcState :=
  { typeInfos := demoTis, heap := [], nextAddr := 101, destructionQueue := []
    mark_bits_inverted := true, youngBytes := 0, oldBytes := 0, oldOom := false
    roots := [{ alive := true, header := 100 }]
    lastCollectSize := some { young_generation_size := 0, old_generation_size := 0 }
    collectorId := 7
    events := [.recordSize 0 0, .flipPolarity, .sweepOld, .sweepYoung, .defuseGuard,
      .armGuard] }

theorem demoFC_eq : force_collect 1 demoRootSt = .ok demoFCSt := by rfl

/-- Witness for C6 at the concrete state `demoRootSt`. -/
theorem C6_witness : forceCollectOrdered 1 demoRootSt demoFCSt :=
  C6_force_collect_order 1 demoRootSt demoFCSt WF_demoRootSt demoFC_eq


theorem getD_set_self : ∀ (l : List Nat) (i v : Nat), i < l.length →
    (l.set i v).getD i 0 = v
  | [], i, _, h => absurd h (by simp)
  | _ :: _, 0, _, _ => rfl
  | _ :: l, i + 1, v, h => getD_set_self l i v (by simpa using h)

theorem getD_set_ne : ∀ (l : List Nat) (i j v : Nat), i ≠ j →
    (l.set i v).getD j 0 = l.getD j 0
  | [], _, _, _, _ => rfl
  | _ :: _, 0, 0, _, h => absurd rfl h
  | _ :: _, 0, _ + 1, _, _ => rfl
  | _ :: _, _ + 1, 0, _, _ => rfl
  | _ :: l, i + 1, j + 1, v, h => getD_set_ne l i j v (fun e => h (by rw [e]))

/-- A settled object is carried over verbatim by an exception-free
marking step. -/
theorem settled_obj_keep {st st' : GcState} {a : Nat} {o : GcObject}
    (hp : Pres none st st') (hl : st.lookupObj a = some o) (hs : settled st a) :
    st'.lookupObj a = some o := by
  obtain ⟨o0, hlo, hfb⟩ := hs
  rw [hl] at hlo
  injection hlo with hlo
  subst hlo
  by_cases hf : o.header.state_bits.forwarded = true
  · obtain ⟨o', hl', _, he⟩ := hp.fwd_keep a o hl hf
    rw [he (by simp)] at hl'
    exact hl'
  · have hf' : o.header.state_bits.forwarded = false := by
      cases hx : o.header.state_bits.forwarded
      · rfl
      · exact absurd hx hf
    rcases hfb with hfc | hb
    · exact absurd hfc hf
    · obtain ⟨o', hl', _, he⟩ := hp.black_keep a o hl hf' hb
      rw [he (by simp)] at hl'
      exact hl'

/-- Content of the per-element tracing loop for an array of plain
managed pointers (one cell per element, the pointer at offset 0): each
listed element is dispatched exactly once and its cell is rewritten to
the post-collection address of the pointer it held; unlisted cells are
untouched. -/
theorem traceElems1_content {cf : GcState → Nat → GcRes} (hcf : CSpec cf) (c : Nat) :
    ∀ (idxs : List Nat) (s sF : GcState) (o : GcObject),
      WFheap s → idxs.Nodup → s.lookupObj c = some o → settled s c →
      traceElementsG cf c 1 [0] idxs s = .ok sF →
      ∃ oF, sF.lookupObj c = some oF ∧ oF.header = o.header ∧
        oF.payload.length = o.payload.length ∧
        (∀ j, j ∉ idxs → oF.payload.getD j 0 = o.payload.getD j 0) ∧
        (∀ i ∈ idxs, i < o.payload.length →
          oF.payload.getD i 0 = resolveForward sF (o.payload.getD i 0)) ∧
        (∀ i, sF.events.count (GcEvent.traceDispatch c i)
          = s.events.count (GcEvent.traceDispatch c i) + (if i ∈ idxs then 1 else 0)) := by
  intro idxs
  induction idxs with
  | nil =>
    intro s sF o _ _ hl _ hok
    simp only [traceElementsG] at hok
    cases hok
    exact ⟨o, hl, rfl, rfl, fun j _ => rfl,
      fun i hi => absurd hi (List.not_mem_nil i), fun i => by simp⟩
  | cons i rest ih =>
    intro s sF o hwf hnd hl hsettled hok
    simp only [traceElementsG, List.map_cons, List.map_nil, Nat.mul_one, Nat.add_zero] at hok
    have hl0 : (s.logEvent (.traceDispatch c i)).lookupObj c = some o := by
      rw [lookupObj_logEvent]
      exact hl
    have hsc0 : settled (s.logEvent (.traceDispatch c i)) c :=
      settled_transport (Pres_logTraceDispatch s c i) hsettled
    cases hcl : traceCellListG cf c [i] (s.logEvent (.traceDispatch c i)) with
    | fatal m => rw [hcl] at hok; cases hok
    | outOfFuel => rw [hcl] at hok; cases hok
    | ok s2 =>
      rw [hcl] at hok
      dsimp only at hok
      simp only [traceCellListG, hl0] at hcl
      cases hcall : cf (s.logEvent (.traceDispatch c i)) (o.payload.getD i 0) with
      | fatal m => rw [hcall] at hcl; cases hcl
      | outOfFuel => rw [hcall] at hcl; cases hcl
      | ok rv s1 =>
        rw [hcall] at hcl
        dsimp only [traceCellListG] at hcl
        injection hcl with hcl
        obtain ⟨hp1, hrv, hsetv⟩ := hcf _ _ _ _ (WF_logEvent hwf) hcall
        have hlc1 : s1.lookupObj c = some o := settled_obj_keep hp1 hl0 hsc0
        have hwf1 : WFheap s1 := hp1.wf (WF_logEvent hwf)
        subst hcl
        have hl2 : (s1.setCell c i rv).lookupObj c
            = some { o with payload := o.payload.set i rv } := lookupObj_setCell_self hlc1
        have hwf2 : WFheap (s1.setCell c i rv) := WF_setCell hwf1
        have hset2 : settled (s1.setCell c i rv) c :=
          settled_transport (Pres_setCell s1 c i rv)
            (settled_transport (Pres.weaken (some c) hp1) hsc0)
        have hnotin : i ∉ rest := (List.nodup_cons.mp hnd).1
        have hnd2 : rest.Nodup := (List.nodup_cons.mp hnd).2
        obtain ⟨oF, hlF, hhF, hlenF, hunt, htrc, hcnt⟩ :=
          ih _ sF _ hwf2 hnd2 hl2 hset2 hok
        have hpF : Pres (some c) (s1.setCell c i rv) sF :=
          traceElementsG_pres hcf c 1 [0] rest _ sF hwf2 hok
        refine ⟨oF, hlF, hhF, ?_, ?_, ?_, ?_⟩
        · rw [hlenF]
          exact List.length_set o.payload i rv
        · intro j hj
          have hji : j ≠ i := fun e => hj (e ▸ List.mem_cons_self i rest)
          have hjr : j ∉ rest := fun e => hj (List.mem_cons_of_mem i e)
          rw [hunt j hjr]
          exact getD_set_ne o.payload i j rv (Ne.symm hji)
        · intro i2 hi2 hlt
          rcases List.mem_cons.mp hi2 with he | hmem
          · subst he
            have hv2 : settled (s1.setCell c i2 rv) (o.payload.getD i2 0) :=
              settled_transport (Pres_setCell s1 c i2 rv) hsetv
            have hres2 : resolveForward (s1.setCell c i2 rv) (o.payload.getD i2 0)
                = resolveForward s1 (o.payload.getD i2 0) :=
              resolveForward_stable (Pres_setCell s1 c i2 rv) hsetv
            have hresF : resolveForward sF (o.payload.getD i2 0)
                = resolveForward (s1.setCell c i2 rv) (o.payload.getD i2 0) :=
              resolveForward_stable hpF hv2
            rw [hunt i2 hnotin, getD_set_self o.payload i2 rv hlt, hresF, hres2]
            exact hrv
          · have hne : i2 ≠ i := fun e => hnotin (e ▸ hmem)
            have := htrc i2 hmem (by
              rw [List.length_set]
              exact hlt)
            rw [getD_set_ne o.payload i i2 rv (Ne.symm hne)] at this
            exact this
        · intro i2
          have hc2 := hcnt i2
          rw [setCell_events] at hc2
          have hc1 : s1.events.count (GcEvent.traceDispatch c i2)
              = (s.logEvent (.traceDispatch c i)).events.count (GcEvent.traceDispatch c i2) :=
            hp1.disp_count c i2 (by simp) hsc0
          rw [hc2, hc1, logEvent_events]
          by_cases hii : i2 = i
          · subst hii
            have hnr : i2 ∉ rest := hnotin
            simp [List.count_cons, hnr, List.mem_cons]
          · have hbeq : (GcEvent.traceDispatch c i2 == GcEvent.traceDispatch c i) = false := by
              simp [hii]
            simp [List.count_cons, hbeq, List.mem_cons, hii]

/-- The C4 postcondition: the array header was promoted to the fresh
old address; the copy keeps the array bit and `len_elements` (the
layout the old allocation derived from it), the payload `memcpy`
moved `n * element_size` bytes, the trace function was dispatched on
the copy exactly once per element and never past the end, and every
pointer cell of the copy holds the post-collection address of the
pointer the original cell held. -/
def arrayPromoted (st : GcState) (tiIdx n r : Nat) (obj : GcObject) (st2 : GcState) : Prop :=
  r = st.nextAddr ∧
  ∃ copyF, st2.lookupObj st.nextAddr = some copyF ∧
    copyF.header.state_bits.array = true ∧
    copyF.header.state_bits.generation = GenerationId.Old ∧
    copyF.header.len_elements = n ∧
    copyF.payload.length = n ∧
    GcEvent.memcpyBytes (n * (st.getTi tiIdx).valueSize) ∈ st2.events ∧
    (∀ i, st2.events.count (GcEvent.traceDispatch st.nextAddr i)
      = if i < n then 1 else 0) ∧
    (∀ i, i < n → copyF.payload.getD i 0 = resolveForward st2 (obj.payload.getD i 0))

/-- C4: tracing a white young array header with one managed-pointer
cell per element promotes it with the array layout and per-element
dispatch described by `arrayPromoted`. -/
theorem C4_array_promotion (fuel : Nat) {st : GcState} {addr tiIdx n : Nat}
    {obj : GcObject} {r : Nat} {st' : GcState}
    (hwf : WFheap st) (hl : st.lookupObj addr = some obj)
    (hm : obj.header.metadata = .typeInfo tiIdx)
    (harr : obj.header.state_bits.array = true)
    (hf : obj.header.state_bits.forwarded = false)
    (hg : obj.header.state_bits.generation = .Young)
    (hoom : st.oldOom = false)
    (hlen : obj.header.len_elements = n)
    (hpl : obj.payload.length = n)
    (hcells : (st.getTi tiIdx).valueCells = 1)
    (htcc : (st.getTi tiIdx).traceCells = some [0])
    (hev0 : ∀ i, GcEvent.traceDispatch st.nextAddr i ∉ st.events)
    (hok : fallback_collect_gc_header fuel st addr = .ok r st') :
    arrayPromoted st tiIdx n r obj st' := by
  unfold fallback_collect_gc_header at hok
  revert hok
  refine fallbackG_young_run hwf hl hm hg hoom (fun res => res = .ok r st' → _) ?_
  intro stMid hmf hok2
  have hgt : stMid.getTi tiIdx = st.getTi tiIdx := by
    unfold GcState.getTi
    rw [hmf.tis]
  unfold traceValueG at hok2
  rw [hgt, htcc] at hok2
  dsimp only at hok2
  cases fuel with
  | zero =>
    rw [show traceChildrenFuel 0 stMid st.nextAddr = .outOfFuel from rfl] at hok2
    cases hok2
  | succ f =>
    cases htc2 : traceChildrenFuel (f + 1) stMid st.nextAddr with
    | fatal m => rw [htc2] at hok2; cases hok2
    | outOfFuel => rw [htc2] at hok2; cases hok2
    | ok st2 =>
      rw [htc2] at hok2
      dsimp only at hok2
      injection hok2 with h1 h2
      subst h1
      subst h2
      unfold traceChildrenFuel trace_childrenG at htc2
      rw [hmf.copy] at htc2
      dsimp only at htc2
      rw [harr] at htc2
      rw [if_pos rfl] at htc2
      rw [hgt, hcells, htcc, hlen] at htc2
      dsimp only [Option.getD] at htc2
      have hsettled : settled stMid st.nextAddr := by
        refine ⟨_, hmf.copy, Or.inr ?_⟩
        dsimp only
        rw [hmf.inv]
        exact resolveRaw_toRaw st.mark_bits_inverted GcMarkBits.Black
      obtain ⟨oF, hlF, hhF, hlenF, -, htrc, hcnt⟩ :=
        traceElems1_content (collect_gcheader_spec f) st.nextAddr (List.range n)
          stMid st2 _ hmf.wf (List.nodup_range n) hmf.copy hsettled htc2
      have hpF : Pres (some st.nextAddr) stMid st2 :=
        traceElementsG_pres (collect_gcheader_spec f) st.nextAddr 1 [0]
          (List.range n) stMid st2 hmf.wf htc2
      refine ⟨rfl, oF, hlF, ?_, ?_, ?_, ?_, ?_, ?_, ?_⟩
      · rw [hhF]
        exact harr
      · rw [hhF]
      · rw [hhF]
        dsimp only
        rw [harr]
        simp only [if_true]
        exact hlen
      · rw [hlenF]
        dsimp only
        exact hpl
      · obtain ⟨extra, hevF, -⟩ := hpF.ev_mono
        rw [hevF, hmf.events, harr, hlen]
        simp
      · intro i
        rw [hcnt i, hmf.events]
        have h0 : st.events.count (GcEvent.traceDispatch st.nextAddr i) = 0 :=
          List.count_eq_zero.mpr (hev0 i)
        simp [List.count_cons, h0, List.mem_range]
      · intro i hi
        have := htrc i (List.mem_range.mpr hi) (by
          dsimp only
          rw [hpl]
          exact hi)
        rw [this]

/-- A young white array of two managed pointers (element type info 1:
one pointer cell per element). -/
def demoArrObj : GcObject := demoObj 1 true 2 [10, 11]

/-- Two young white plain objects the array points to. -/
def demoArrSt : GcState :=
  { demoEmpty with
    heap := [(100, demoArrObj), (10, demoObj 0 false 0 [1]), (11, demoObj 0 false 0 [2])]
    nextAddr := 200 }

theorem WF_demoArrSt : WFheap demoArrSt := by
  intro p hp
  rcases List.mem_cons.mp hp with h | hp
  · subst h; decide
  rcases List.mem_cons.mp hp with h | hp
  · subst h; decide
  rcases List.mem_cons.mp hp with h | hp
  · subst h; decide
  exact absurd hp (List.not_mem_nil p)

/-- The state after promoting the array (and, through its cells, both
elements). -/
def demoArrOut : GcState :=
  match fallback_collect_gc_header 1 demoArrSt 100 with
  | .ok _ s => s
  | _ => demoEmpty

theorem demoArr_eq : fallback_collect_gc_header 1 demoArrSt 100 = .ok 200 demoArrOut := rfl

/-- Witness for C4 at the concrete two-element array. -/
theorem C4_witness : arrayPromoted demoArrSt 1 2 200 demoArrObj demoArrOut :=
  C4_array_promotion 1 WF_demoArrSt
    (show demoArrSt.lookupObj 100 = some demoArrObj from rfl)
    (show demoArrObj.header.metadata = .typeInfo 1 from rfl)
    (by decide) (by decide) (by decide) (by decide) (by decide) (by decide)
    (by decide) (by decide)
    (by intro i h; simp [demoArrSt, demoEmpty] at h)
    demoArr_eq

end ZeroGc
